import Mathlib

/-!
# core_random_sequence: the rectangle sequence, its shuffle and the count keys

A shallow embedding of `src/examples/core/core_random_sequence.c`.

* C `int` values are `Int`; where the source can overflow (`rectCount++`) the
  step is undefined and the model returns `none`.
* An array (`ColorRect *`, `int *`) is a `List`; a read or write outside the
  array is undefined and the model returns `none`.
* The values the random source hands out (`LoadRandomSequence`,
  `GetRandomValue`) are inputs of the model.
* C `float` values are rationals, at two levels.  The exact level computes
  without rounding; it carries the statements in which no `float` result is
  compared with a number: the shuffle, the count, the guards of the divisions
  and the order of the heights.  The binary32 level (`Binary32`) rounds every
  operation as the machine does; the statements about the values of the heights
  and of the positions are made there.
-/

namespace RandomSequence

/-! ## Data model -/

/-- Modelled from the spec: the `Color` type of `raylib.h`, which is not part of
the sources: an RGB colour with an opacity, four `unsigned char` channels. -/
structure Color where
  r : Nat
  g : Nat
  b : Nat
  a : Nat
deriving DecidableEq

/-- Modelled from the spec: the `RL_Rectangle` type of `raylib.h`, which is not
part of the sources: a position, a width and a height, four `float` fields. -/
structure RL_Rectangle where
  x : ℚ
  y : ℚ
  width : ℚ
  height : ℚ
deriving DecidableEq

/-- The `ColorRect` struct: a colour `c` and a rectangle `r`. -/
structure ColorRect where
  c : Color
  r : RL_Rectangle
deriving DecidableEq

/-- The largest value of a C `int` (32 bits). -/
def INT_MAX : Int := 2147483647

/-- The constant `screenWidth` of `main`. -/
def screenWidth : Int := 800

/-- The constant `screenHeight` of `main`. -/
def screenHeight : Int := 450

/-! ## Arithmetic helpers -/

/-- The C conversion `(int)f` of a `float`: the fractional part is discarded
(truncation toward zero).  The range of `int` is checked in `Binary32.toInt`. -/
def floatToInt (f : ℚ) : Int :=
  if 0 ≤ f then ⌊f⌋ else ⌈f⌉

/-- The C conversion of an `int` to `unsigned char`: reduction modulo 256. -/
def toUnsignedChar (v : Int) : Nat :=
  (v % 256).toNat

/-- Modelled from the spec: `Remap` of `raymath.h`, which is not part of the
sources: the linear transformation of a value from the input range
`[inputStart, inputEnd]` to the output range `[outputStart, outputEnd]`.  For an
empty input range (`inputEnd = inputStart`) the C value is not a number; here
the quotient is `0` as everywhere in `ℚ`. -/
def Remap (value inputStart inputEnd outputStart outputEnd : ℚ) : ℚ :=
  (value - inputStart) / (inputEnd - inputStart) * (outputEnd - outputStart) + outputStart

/-! ## GenerateRandomColor, GenerateRandomColorRectSequence -/

/-- The function `GenerateRandomColor`; `v0 v1 v2` are the three results of
`GetRandomValue(0, 255)`. -/
def GenerateRandomColor (v0 v1 v2 : Int) : Color :=
  { r := toUnsignedChar v0, g := toUnsignedChar v1, b := toUnsignedChar v2, a := 255 }

/-- The body of the `for` loop of `GenerateRandomColorRectSequence`, at index
`i`, at the exact level: the rectangle stored in `rectangles[i]`.  `size` is the
number of elements the `malloc` reserved. -/
def generateBody (rectCount rectWidth screenHeight startX : ℚ) (size : Nat)
    (seq : List Int) (rnd : Nat → Int) (i : Nat) : Option ColorRect :=
  match seq[i]? with
  | none => none
  | some s =>
    if i < size then
      let rectHeight : Int := floatToInt (Remap (s : ℚ) 0 (rectCount - 1) 0 screenHeight)
      some { c := GenerateRandomColor (rnd (3 * i)) (rnd (3 * i + 1)) (rnd (3 * i + 2)),
             r := { x := startX + (i : ℚ) * rectWidth,
                    y := screenHeight - (rectHeight : ℚ),
                    width := rectWidth,
                    height := (rectHeight : ℚ) } }
    else none

/-- The function `GenerateRandomColorRectSequence`, at the exact level (no
operation is rounded; `Binary32.GenerateRandomColorRectSequence` is the rounded
one).  `seq` is the array `LoadRandomSequence` returned and `rnd k` the `k`-th
result of `GetRandomValue`.  The loop `for (int i = 0; i < rectCount; i++)`
compares the `int` counter with the `float` count, so it runs for
`i = 0, ..., ⌈rectCount⌉ - 1`. -/
def GenerateRandomColorRectSequence (rectCount rectWidth screenWidth screenHeight : ℚ)
    (seq : List Int) (rnd : Nat → Int) : Option (List ColorRect) :=
  let size : Nat := (floatToInt rectCount).toNat
  let rectSeqWidth : ℚ := rectCount * rectWidth
  let startX : ℚ := (screenWidth - rectSeqWidth) * (1 / 2)
  (List.range ⌈rectCount⌉₊).mapM
    (generateBody rectCount rectWidth screenHeight startX size seq rnd)

/-! ## ShuffleColorRectSequence -/

/-- A store through a pointer to `rectangles[p]`: the element is replaced by
`f` of it; outside the array the store is undefined. -/
def storeAt (mem : List ColorRect) (p : Nat) (f : ColorRect → ColorRect) :
    Option (List ColorRect) :=
  match mem[p]? with
  | none => none
  | some e => some (mem.set p (f e))

/-- The body of the `for` loop of `ShuffleColorRectSequence`, at index `i1`.
`r1` and `r2` are pointers into the same array, so each of the six assignments
reads the array as the assignments before it left it. -/
def shuffleBody (seq : List Int) (rectangles : List ColorRect) (i1 : Nat) :
    Option (List ColorRect) :=
  match seq[i1]? with
  | none => none
  | some s =>
    if s < 0 then none else
    let r1 : Nat := i1
    let r2 : Nat := s.toNat
    -- ColorRect tmp = *r1;
    (rectangles[r1]?).bind fun tmp =>
    -- r1->c = r2->c;
    (rectangles[r2]?).bind fun e =>
    (storeAt rectangles r1 fun d => { d with c := e.c }).bind fun m1 =>
    -- r1->r.height = r2->r.height;
    (m1[r2]?).bind fun e =>
    (storeAt m1 r1 fun d => { d with r := { d.r with height := e.r.height } }).bind fun m2 =>
    -- r1->r.y = r2->r.y;
    (m2[r2]?).bind fun e =>
    (storeAt m2 r1 fun d => { d with r := { d.r with y := e.r.y } }).bind fun m3 =>
    -- r2->c = tmp.c;
    (storeAt m3 r2 fun d => { d with c := tmp.c }).bind fun m4 =>
    -- r2->r.height = tmp.r.height;
    (storeAt m4 r2 fun d => { d with r := { d.r with height := tmp.r.height } }).bind fun m5 =>
    -- r2->r.y = tmp.r.y;
    storeAt m5 r2 fun d => { d with r := { d.r with y := tmp.r.y } }

/-- The first `k` iterations of the loop of `ShuffleColorRectSequence`. -/
def shuffleLoop (seq : List Int) (rectangles : List ColorRect) (k : Nat) :
    Option (List ColorRect) :=
  (List.range k).foldlM (shuffleBody seq) rectangles

/-- The function `ShuffleColorRectSequence`; `seq` is the array
`LoadRandomSequence(rectCount, 0, rectCount - 1)` returned. -/
def ShuffleColorRectSequence (rectangles : List ColorRect) (rectCount : Int)
    (seq : List Int) : Option (List ColorRect) :=
  shuffleLoop seq rectangles rectCount.toNat

/-! ## main: the update part of the game loop -/

/-- The variables of `main` that the update part of the loop reads and writes. -/
structure MainState where
  rectCount : Int
  rectSize : ℚ
  rectangles : List ColorRect
deriving DecidableEq

/-- What one pass of the game loop receives from outside: the three results of
`IsKeyPressed`, and the values the random source hands to the call made for
each key. -/
structure FrameInput where
  keySpace : Bool
  keyUp : Bool
  keyDown : Bool
  shuffleSeq : List Int
  upSeq : List Int
  upRnd : Nat → Int
  downSeq : List Int
  downRnd : Nat → Int

/-- The statements of `main` that follow every change of `rectCount` (and the
initialisation), at the exact level: `rectSize = (float)screenWidth/rectCount`
and the call `GenerateRandomColorRectSequence((float)rectCount, rectSize,
(float)screenWidth, 0.75f*screenHeight)`. -/
def regenerate (rectCount : Int) (seq : List Int) (rnd : Nat → Int) : Option MainState :=
  let rectSize : ℚ := (screenWidth : ℚ) / (rectCount : ℚ)
  (GenerateRandomColorRectSequence (rectCount : ℚ) rectSize (screenWidth : ℚ)
      ((3 / 4 : ℚ) * (screenHeight : ℚ)) seq rnd).map
    fun rectangles => { rectCount := rectCount, rectSize := rectSize, rectangles := rectangles }

/-- The initialisation of `main`: `rectCount = 20`. -/
def mainInit (seq : List Int) (rnd : Nat → Int) : Option MainState :=
  regenerate 20 seq rnd

/-- The statement `if (IsKeyPressed(KEY_SPACE)) ShuffleColorRectSequence(rectangles, rectCount);`. -/
def onSpace (f : FrameInput) (st : MainState) : Option MainState :=
  if f.keySpace then
    (ShuffleColorRectSequence st.rectangles st.rectCount f.shuffleSeq).map
      fun rectangles => { st with rectangles := rectangles }
  else some st

/-- The block `if (IsKeyPressed(KEY_UP)) { rectCount++; ... }`; the increment of
an `int` at `INT_MAX` is undefined. -/
def onUp (f : FrameInput) (st : MainState) : Option MainState :=
  if f.keyUp then
    if st.rectCount < INT_MAX then regenerate (st.rectCount + 1) f.upSeq f.upRnd
    else none
  else some st

/-- The block `if (IsKeyPressed(KEY_DOWN)) { if (rectCount >= 4) { rectCount--; ... } }`. -/
def onDown (f : FrameInput) (st : MainState) : Option MainState :=
  if f.keyDown then
    if st.rectCount ≥ 4 then regenerate (st.rectCount - 1) f.downSeq f.downRnd
    else some st
  else some st

/-- The update part of one pass of the game loop: the three key tests, in the
order of the source. -/
def mainUpdate (f : FrameInput) (st : MainState) : Option MainState :=
  (onSpace f st).bind fun st1 => (onUp f st1).bind fun st2 => onDown f st2

/-- The game loop over the passes `frames`. -/
def mainLoop (frames : List FrameInput) (st : MainState) : Option MainState :=
  frames.foldlM (fun s f => mainUpdate f s) st

/-- The function `main` up to the end of the loop: initialisation, then the
passes `frames`. -/
def mainRun (seq : List Int) (rnd : Nat → Int) (frames : List FrameInput) : Option MainState :=
  (mainInit seq rnd).bind (mainLoop frames)

/-! ## Binary32 arithmetic

The numerical claims about the generated rectangles are settled on a second
embedding of the same statements, in which every `float` operation is rounded
to binary32 (round to nearest, ties to even, one rounding per operation, as the
SSE code of an x86-64 build computes).  A binary32 value is the rational it
denotes; a result that is not a finite number (overflow, a division by zero),
and a conversion to `int` outside the range of `int`, are outside this model:
the operation returns `none`.  The sign of a zero is not modelled. -/

namespace Binary32

/-- The binary exponent of the binary32 interval `x` lies in: `e` with
`2^e ≤ |x| < 2^(e+1)`, and `-126` in the subnormal range. -/
def expo (x : ℚ) : Int :=
  max (Int.log 2 |x|) (-126)

/-- The spacing of the binary32 values around `x` (24 significant bits). -/
def ulp (x : ℚ) : ℚ :=
  (2 : ℚ) ^ (expo x - 23)

/-- The integer nearest to `m`, the even one of the two when `m` is half way. -/
def nearestEven (m : ℚ) : Int :=
  if m - ⌊m⌋ < 1 / 2 then ⌊m⌋
  else if 1 / 2 < m - ⌊m⌋ then ⌊m⌋ + 1
  else if ⌊m⌋ % 2 = 0 then ⌊m⌋ else ⌊m⌋ + 1

/-- Rounding to binary32 with an unbounded exponent upward: the nearest
multiple of `ulp x`, ties to even. -/
def rn (x : ℚ) : ℚ :=
  (nearestEven (x / ulp x) : ℚ) * ulp x

/-- The binary32 result of an operation whose exact result is `x`; `none` when
the rounded value overflows (it is `2^128` or more in absolute value). -/
def fl (x : ℚ) : Option ℚ :=
  if |rn x| < 2 ^ 128 then some (rn x) else none

/-- The `float` sum `a + b`. -/
def add (a b : ℚ) : Option ℚ :=
  fl (a + b)

/-- The `float` difference `a - b`. -/
def sub (a b : ℚ) : Option ℚ :=
  fl (a - b)

/-- The `float` product `a * b`. -/
def mul (a b : ℚ) : Option ℚ :=
  fl (a * b)

/-- The `float` quotient `a / b`; with `b = 0` the result is an infinity or not
a number. -/
def div (a b : ℚ) : Option ℚ :=
  if b = 0 then none else fl (a / b)

/-- The conversion `(float)i` of an `int`. -/
def ofInt (i : Int) : Option ℚ :=
  fl (i : ℚ)

/-- The conversion `(int)x` of a `float`: truncation toward zero, undefined
when the truncated value is not an `int`. -/
def toInt (x : ℚ) : Option Int :=
  if -2147483648 ≤ floatToInt x ∧ floatToInt x ≤ INT_MAX then some (floatToInt x) else none

/-- The half of the smallest positive binary32 value: the largest rounding
error in the subnormal range. -/
def eta : ℚ :=
  (2 : ℚ) ^ (-150 : Int)

/-- Modelled from the spec: `Remap` of `raymath.h`, which is not part of the
sources, with every operation rounded:
`(value - inputStart)/(inputEnd - inputStart)*(outputEnd - outputStart) + outputStart`. -/
def Remap (value inputStart inputEnd outputStart outputEnd : ℚ) : Option ℚ :=
  (sub value inputStart).bind fun a =>
  (sub inputEnd inputStart).bind fun b =>
  (div a b).bind fun q =>
  (sub outputEnd outputStart).bind fun c =>
  (mul q c).bind fun p =>
  add p outputStart

/-- The statement `int rectHeight = (int)Remap((float)seq[i], 0, rectCount - 1, 0, screenHeight);`
of `GenerateRandomColorRectSequence`, for `seq[i] = s`. -/
def rectHeight (s : Int) (rectCount screenHeight : ℚ) : Option Int :=
  (ofInt s).bind fun value =>
  (sub rectCount 1).bind fun inputEnd =>
  (Remap value 0 inputEnd 0 screenHeight).bind fun r =>
  toInt r

/-- The body of the `for` loop of `GenerateRandomColorRectSequence`, at index
`i`, every operation rounded: `x` is `startX + i*rectWidth`, `y` is
`screenHeight - rectHeight`, the height is `(float)rectHeight`. -/
def generateBody (rectCount rectWidth screenHeight startX : ℚ) (size : Nat)
    (seq : List Int) (rnd : Nat → Int) (i : Nat) : Option ColorRect :=
  match seq[i]? with
  | none => none
  | some s =>
    if i < size then
      (rectHeight s rectCount screenHeight).bind fun rectHeight =>
      (ofInt i).bind fun fi =>
      (mul fi rectWidth).bind fun offset =>
      (add startX offset).bind fun x =>
      (ofInt rectHeight).bind fun height =>
      (sub screenHeight height).bind fun y =>
      some { c := GenerateRandomColor (rnd (3 * i)) (rnd (3 * i + 1)) (rnd (3 * i + 2)),
             r := { x := x, y := y, width := rectWidth, height := height } }
    else none

/-- The function `GenerateRandomColorRectSequence`, every operation rounded.
The array has `(int)rectCount` elements; the loop runs while `(float)i < rectCount`,
which for a binary32 `rectCount` ends at `i = ⌈rectCount⌉` at the latest. -/
def GenerateRandomColorRectSequence (rectCount rectWidth screenWidth screenHeight : ℚ)
    (seq : List Int) (rnd : Nat → Int) : Option (List ColorRect) :=
  (toInt rectCount).bind fun size =>
  (mul rectCount rectWidth).bind fun rectSeqWidth =>
  (sub screenWidth rectSeqWidth).bind fun d =>
  (mul d (1 / 2)).bind fun startX =>
  ((List.range ⌈rectCount⌉₊).takeWhile fun (i : Nat) => decide (rn (i : ℚ) < rectCount)).mapM
    (generateBody rectCount rectWidth screenHeight startX size.toNat seq rnd)

/-- The statements of `main` that follow every change of `rectCount`, every
operation rounded: `rectSize = (float)screenWidth/rectCount` and the call
`GenerateRandomColorRectSequence((float)rectCount, rectSize, (float)screenWidth,
0.75f*screenHeight)`. -/
def regenerate (rectCount : Int) (seq : List Int) (rnd : Nat → Int) : Option MainState :=
  (ofInt screenWidth).bind fun fw =>
  (ofInt rectCount).bind fun fc =>
  (div fw fc).bind fun rectSize =>
  (ofInt screenHeight).bind fun fh =>
  (mul (3 / 4) fh).bind fun maxHeight =>
  (GenerateRandomColorRectSequence fc rectSize fw maxHeight seq rnd).map
    fun rectangles => { rectCount := rectCount, rectSize := rectSize, rectangles := rectangles }

/-- The binary32 value `Remap` returns for the value `s`, the count `n` and the
height `H`: the quotient is rounded, then the product. -/
def remapValue (s : Int) (n : Nat) (H : ℚ) : ℚ :=
  rn (rn ((s : ℚ) / ((n : ℚ) - 1)) * H)

/-- The start of the row: `(screenWidth - rectCount*rectWidth)*0.5f`, every
operation rounded. -/
def startXValue (n : Nat) (rectWidth screenWidth : ℚ) : ℚ :=
  rn (rn (screenWidth - rn ((n : ℚ) * rectWidth)) * (1 / 2))

/-- The rectangle the rounded loop stores at index `i` for the value `s`. -/
def roundedRect (n : Nat) (rectWidth screenWidth screenHeight : ℚ) (rnd : Nat → Int)
    (i : Nat) (s : Int) : ColorRect :=
  { c := GenerateRandomColor (rnd (3 * i)) (rnd (3 * i + 1)) (rnd (3 * i + 2)),
    r := { x := rn (startXValue n rectWidth screenWidth + rn ((i : ℚ) * rectWidth)),
           y := rn (screenHeight - ((⌊remapValue s n screenHeight⌋ : Int) : ℚ)),
           width := rectWidth,
           height := ((⌊remapValue s n screenHeight⌋ : Int) : ℚ) } }

/-- The position the rounded loop gives the rectangle `i`. -/
def roundedX (n : Nat) (rectWidth screenWidth : ℚ) (i : Nat) : ℚ :=
  rn (startXValue n rectWidth screenWidth + rn ((i : ℚ) * rectWidth))

/-- The width `main` passes for the count `n`: `(float)screenWidth/rectCount`. -/
def mainWidth (n : Nat) : ℚ :=
  rn (800 / (n : ℚ))

/-- The position `main` gives the rectangle `i` at the count `n`. -/
def mainX (n i : Nat) : ℚ :=
  rn (startXValue n (mainWidth n) 800 + rn ((i : ℚ) * mainWidth n))

end Binary32

/-! ## The swap pass, as the specification words it -/

/-- The payload of an item: the colour, the height and the vertical position. -/
def payload (e : ColorRect) : Color × ℚ × ℚ :=
  (e.c, e.r.height, e.r.y)

/-- The item `e` carrying the payload `p`; its `x` and `width` stay. -/
def withPayload (e : ColorRect) (p : Color × ℚ × ℚ) : ColorRect :=
  { c := p.1, r := { x := e.r.x, y := p.2.2, width := e.r.width, height := p.2.1 } }

/-- Specification: exchange the (color, height, y) payload of item `i` with that
of item `j`. -/
def exchangePayload (items : List ColorRect) (i j : Nat) : List ColorRect :=
  match items[i]?, items[j]? with
  | some a, some b =>
    (items.set i (withPayload a (payload b))).set j (withPayload b (payload a))
  | _, _ => items

/-- Specification: the left-to-right fold, over `i = 0, ..., k - 1`, of the
exchange of item `i` with item `seq[i]`. -/
def swapPass (items : List ColorRect) (seq : List Int) (k : Nat) : List ColorRect :=
  (List.range k).foldl (fun m i => exchangePayload m i (seq.getD i 0).toNat) items

/-- The index sequence is in range: every entry lies in `[0, n - 1]`. -/
@[reducible] def InRange (seq : List Int) (n : Nat) : Prop :=
  ∀ s ∈ seq, 0 ≤ s ∧ s < (n : Int)

/-- The horizontal position and the width of an item. -/
def frame (e : ColorRect) : ℚ × ℚ :=
  (e.r.x, e.r.width)

/-! ## Definitions used in the proofs -/

/-- The rectangle the loop of `GenerateRandomColorRectSequence` stores at index
`i` when the sequence holds `s` there. -/
def generatedRect (rectCount rectWidth screenWidth screenHeight : ℚ) (rnd : Nat → Int)
    (i : Nat) (s : Int) : ColorRect :=
  { c := GenerateRandomColor (rnd (3 * i)) (rnd (3 * i + 1)) (rnd (3 * i + 2)),
    r := { x := (screenWidth - rectCount * rectWidth) * (1 / 2) + (i : ℚ) * rectWidth,
           y := screenHeight - ((floatToInt (Remap (s : ℚ) 0 (rectCount - 1) 0 screenHeight) : Int) : ℚ),
           width := rectWidth,
           height := ((floatToInt (Remap (s : ℚ) 0 (rectCount - 1) 0 screenHeight) : Int) : ℚ) } }

/-- What holds of the count in every state of the loop. -/
def CountInv (st : MainState) : Prop :=
  3 ≤ st.rectCount ∧ st.rectCount ≤ INT_MAX ∧
    st.rectSize = (screenWidth : ℚ) / (st.rectCount : ℚ)

/-! ## Inputs used in the examples -/

/-- The sequence `0, 1, ..., n - 1`, one of the permutations `LoadRandomSequence`
can return. -/
def idSeq (n : Nat) : List Int :=
  (List.range n).map Int.ofNat

/-- A random source that returns `0` at every call. -/
def rndZero : Nat → Int :=
  fun _ => 0

/-- A pass of the loop with no key pressed. -/
def noKey : FrameInput :=
  { keySpace := false, keyUp := false, keyDown := false, shuffleSeq := [], upSeq := [],
    upRnd := rndZero, downSeq := [], downRnd := rndZero }

/-- A pass of the loop with only SPACE pressed; the shuffle draws `seq`. -/
def spaceKey (seq : List Int) : FrameInput :=
  { noKey with keySpace := true, shuffleSeq := seq }

/-- A pass of the loop with only UP pressed; the regeneration draws `seq`. -/
def upKey (seq : List Int) : FrameInput :=
  { noKey with keyUp := true, upSeq := seq }

/-- A pass of the loop with only DOWN pressed; the regeneration draws `seq`. -/
def downKey (seq : List Int) : FrameInput :=
  { noKey with keyDown := true, downSeq := seq }

/-- Four concrete rectangles for the worked example. -/
def exampleItems : List ColorRect :=
  [ ⟨⟨1, 1, 1, 255⟩, ⟨0, 350, 5, 100⟩⟩, ⟨⟨2, 2, 2, 255⟩, ⟨5, 250, 5, 200⟩⟩,
    ⟨⟨3, 3, 3, 255⟩, ⟨10, 150, 5, 300⟩⟩, ⟨⟨4, 4, 4, 255⟩, ⟨15, 50, 5, 400⟩⟩ ]

/-- The passes that press DOWN `k` times from the initial count. -/
def downFrames (k : Nat) : List FrameInput :=
  (List.range k).map fun j => downKey (idSeq (19 - j))

/-! ## Lemmas: the exchange of two payloads -/

theorem withPayload_self (e : ColorRect) : withPayload e (payload e) = e := rfl

theorem frame_withPayload (e : ColorRect) (p : Color × ℚ × ℚ) :
    frame (withPayload e p) = frame e := rfl

theorem payload_withPayload (e : ColorRect) (p : Color × ℚ × ℚ) :
    payload (withPayload e p) = p := rfl

theorem length_exchangePayload (items : List ColorRect) (i j : Nat) :
    (exchangePayload items i j).length = items.length := by
  unfold exchangePayload
  split <;> simp

theorem getElem?_exchangePayload_left (m : List ColorRect) (i j : Nat) (a b : ColorRect)
    (ha : m[i]? = some a) (hb : m[j]? = some b) :
    (exchangePayload m i j)[i]? = some (withPayload a (payload b)) := by
  have hi : i < m.length := (List.getElem?_eq_some_iff.mp ha).1
  have hj : j < m.length := (List.getElem?_eq_some_iff.mp hb).1
  by_cases hij : i = j
  · subst hij
    have : a = b := by rw [ha] at hb; exact Option.some.inj hb
    subst this
    simp [exchangePayload, ha, hi]
  · have hji : j ≠ i := fun h => hij h.symm
    simp [exchangePayload, ha, hb, List.getElem?_set_ne hji, hi]

theorem getElem?_exchangePayload_right (m : List ColorRect) (i j : Nat) (a b : ColorRect)
    (ha : m[i]? = some a) (hb : m[j]? = some b) :
    (exchangePayload m i j)[j]? = some (withPayload b (payload a)) := by
  have hj : j < m.length := (List.getElem?_eq_some_iff.mp hb).1
  simp [exchangePayload, ha, hb, hj]

theorem exchangePayload_self (m : List ColorRect) (i : Nat) : exchangePayload m i i = m := by
  unfold exchangePayload
  split
  · next a b ha hb =>
    have : a = b := by rw [ha] at hb; exact Option.some.inj hb
    subst this
    obtain ⟨hi, rfl⟩ := List.getElem?_eq_some_iff.mp ha
    simp only [withPayload_self, List.set_set]
    apply List.ext_getElem?
    intro p
    rw [List.getElem?_set]
    split_ifs with h1
    · subst h1; exact (List.getElem?_eq_getElem hi).symm
    · rfl
  · rfl

theorem map_frame_exchangePayload (m : List ColorRect) (i j : Nat) :
    (exchangePayload m i j).map frame = m.map frame := by
  unfold exchangePayload
  split
  · next a b ha hb =>
    have hi := List.getElem?_eq_some_iff.mp ha
    have hj := List.getElem?_eq_some_iff.mp hb
    obtain ⟨hi, rfl⟩ := hi
    obtain ⟨hj, rfl⟩ := hj
    simp only [List.map_set, frame_withPayload]
    apply List.ext_getElem?
    intro p
    simp only [List.getElem?_set, List.length_set, List.length_map, List.getElem?_map]
    split_ifs with h1 h2
    · subst h1; simp [List.getElem?_eq_getElem hj]
    · subst h2; simp [List.getElem?_eq_getElem hi]
    · rfl
  · rfl

theorem perm_swap_set {α : Type} [DecidableEq α] (l : List α) (i j : Nat)
    (hi : i < l.length) (hj : j < l.length) :
    ((l.set i l[j]).set j l[i]).Perm l := by
  rw [List.perm_iff_count]
  intro x
  rw [List.count_set _ _ _ _ (by simpa using hj), List.count_set _ _ _ _ hi]
  have h1 := List.count_pos_iff.mpr (List.getElem_mem hi)
  have h2 := List.count_pos_iff.mpr (List.getElem_mem hj)
  by_cases hij : i = j
  · subst hij
    simp only [List.getElem_set_self]
    by_cases hx : l[i] = x
    · subst hx; simp
    · simp [hx]
  · have hji : j ≠ i := fun h => hij h.symm
    rw [List.getElem_set_ne hij]
    by_cases hx : l[i] = x <;> by_cases hy : l[j] = x
    · subst hx; simp [hy]
    · subst hx; simp [hy]
    · subst hy; simp [hx]
    · simp [hx, hy]

theorem perm_payload_exchangePayload (m : List ColorRect) (i j : Nat) :
    ((exchangePayload m i j).map payload).Perm (m.map payload) := by
  unfold exchangePayload
  split
  · next a b ha hb =>
    obtain ⟨hi, rfl⟩ := List.getElem?_eq_some_iff.mp ha
    obtain ⟨hj, rfl⟩ := List.getElem?_eq_some_iff.mp hb
    simp only [List.map_set, payload_withPayload]
    have := perm_swap_set (m.map payload) i j (by simpa using hi) (by simpa using hj)
    simpa using this
  · exact List.Perm.refl _

/-! ## Lemmas: the swap pass and the loop of the shuffle -/

theorem swapPass_zero (m : List ColorRect) (seq : List Int) : swapPass m seq 0 = m := rfl

theorem swapPass_succ (items : List ColorRect) (seq : List Int) (k : Nat) :
    swapPass items seq (k + 1)
      = exchangePayload (swapPass items seq k) k (seq.getD k 0).toNat := by
  simp [swapPass, List.range_succ]

theorem length_swapPass (items : List ColorRect) (seq : List Int) (k : Nat) :
    (swapPass items seq k).length = items.length := by
  induction k with
  | zero => simp [swapPass]
  | succ k ih =>
    simp only [swapPass, List.range_succ, List.foldl_append, List.foldl_cons, List.foldl_nil]
      at ih ⊢
    rw [length_exchangePayload, ih]

theorem map_frame_swapPass (m : List ColorRect) (seq : List Int) (k : Nat) :
    (swapPass m seq k).map frame = m.map frame := by
  induction k with
  | zero => simp [swapPass]
  | succ k ih => rw [swapPass_succ, map_frame_exchangePayload, ih]

theorem perm_payload_swapPass (m : List ColorRect) (seq : List Int) (k : Nat) :
    ((swapPass m seq k).map payload).Perm (m.map payload) := by
  induction k with
  | zero => simp [swapPass]
  | succ k ih =>
    rw [swapPass_succ]
    exact (perm_payload_exchangePayload _ _ _).trans ih

theorem swapPass_identity (m : List ColorRect) (seq : List Int)
    (hid : ∀ i (h : i < seq.length), seq[i] = (i : Int)) :
    ∀ k, k ≤ seq.length → swapPass m seq k = m := by
  intro k
  induction k with
  | zero => intro _; simp [swapPass]
  | succ k ih =>
    intro hk
    have hk' : k < seq.length := by omega
    rw [swapPass_succ, ih (by omega)]
    have : seq.getD k 0 = (k : Int) := by
      rw [List.getD_eq_getElem?_getD, List.getElem?_eq_getElem hk']
      exact hid k hk'
    rw [this, Int.toNat_ofNat, exchangePayload_self]

/-- The four steps of the pass `[2, 0, 3, 1]` over four items. -/
theorem swapPass_example (A B C D : ColorRect) :
    swapPass [A, B, C, D] [2, 0, 3, 1] 1
        = [withPayload A (payload C), B, withPayload C (payload A), D]
    ∧ swapPass [A, B, C, D] [2, 0, 3, 1] 2
        = [withPayload A (payload B), withPayload B (payload C), withPayload C (payload A), D]
    ∧ swapPass [A, B, C, D] [2, 0, 3, 1] 3
        = [withPayload A (payload B), withPayload B (payload C), withPayload C (payload D),
           withPayload D (payload A)]
    ∧ swapPass [A, B, C, D] [2, 0, 3, 1] 4
        = [withPayload A (payload B), withPayload B (payload A), withPayload C (payload D),
           withPayload D (payload C)] := by
  have h1 : swapPass [A, B, C, D] [2, 0, 3, 1] 1
      = [withPayload A (payload C), B, withPayload C (payload A), D] := by
    rw [show (1 : Nat) = 0 + 1 from rfl, swapPass_succ, swapPass_zero]
    simp [exchangePayload]
  have h2 : swapPass [A, B, C, D] [2, 0, 3, 1] 2
      = [withPayload A (payload B), withPayload B (payload C), withPayload C (payload A), D] := by
    rw [show (2 : Nat) = 1 + 1 from rfl, swapPass_succ, h1]
    simp [exchangePayload]
    constructor <;> rfl
  have h3 : swapPass [A, B, C, D] [2, 0, 3, 1] 3
      = [withPayload A (payload B), withPayload B (payload C), withPayload C (payload D),
         withPayload D (payload A)] := by
    rw [show (3 : Nat) = 2 + 1 from rfl, swapPass_succ, h2]
    simp [exchangePayload]
    constructor <;> rfl
  refine ⟨h1, h2, h3, ?_⟩
  rw [show (4 : Nat) = 3 + 1 from rfl, swapPass_succ, h3]
  simp [exchangePayload]
  constructor <;> rfl

/-- One iteration of the source loop is one exchange of payloads, also when the
two pointers are aliases of one element. -/
theorem shuffleBody_eq (seq : List Int) (m : List ColorRect) (i1 : Nat) (s : Int)
    (hs : seq[i1]? = some s) (h0 : 0 ≤ s) (h1 : i1 < m.length) (h2 : s.toNat < m.length) :
    shuffleBody seq m i1 = some (exchangePayload m i1 s.toNat) := by
  have hneg : ¬ s < 0 := not_lt.mpr h0
  by_cases hij : i1 = s.toNat
  · rw [← hij]
    simp [shuffleBody, hs, hneg, ← hij, storeAt, exchangePayload, h1, List.getElem?_eq_getElem,
      withPayload, payload]
  · have hji : s.toNat ≠ i1 := fun h => hij h.symm
    simp [shuffleBody, hs, hneg, storeAt, exchangePayload, h1, h2, List.getElem?_eq_getElem,
      withPayload, payload, List.getElem?_set_ne, hij, hji, List.getElem_set_ne]

theorem InRange.toNat_lt {seq : List Int} {n : Nat} (h : InRange seq n) {i : Nat} {s : Int}
    (hs : seq[i]? = some s) : 0 ≤ s ∧ s.toNat < n := by
  have hmem : s ∈ seq := List.getElem?_mem hs
  obtain ⟨h0, h1⟩ := h s hmem
  exact ⟨h0, by omega⟩

/-- The source loop and the specified fold agree after every number of
iterations. -/
theorem shuffleLoop_eq (seq : List Int) (m : List ColorRect)
    (hlen : seq.length = m.length) (hr : InRange seq m.length) :
    ∀ k, k ≤ m.length → shuffleLoop seq m k = some (swapPass m seq k) := by
  intro k
  induction k with
  | zero => intro _; simp [shuffleLoop, swapPass]
  | succ k ih =>
    intro hk
    have hk' : k < seq.length := by omega
    have hs : seq[k]? = some seq[k] := List.getElem?_eq_getElem hk'
    obtain ⟨h0, h1⟩ := hr.toNat_lt hs
    have ih' := ih (by omega)
    unfold shuffleLoop at ih' ⊢
    rw [List.range_succ, List.foldlM_append, ih']
    simp only [Option.bind_eq_bind, Option.some_bind, List.foldlM_cons, List.foldlM_nil,
      Option.pure_def, Option.bind_some]
    rw [shuffleBody_eq seq _ k _ hs h0 (by rw [length_swapPass]; omega)
      (by rw [length_swapPass]; exact h1), swapPass_succ]
    simp [List.getD_eq_getElem?_getD, hs]

theorem shuffle_eq_swapPass (rectangles : List ColorRect) (seq : List Int)
    (hlen : seq.length = rectangles.length) (hr : InRange seq rectangles.length) :
    ShuffleColorRectSequence rectangles rectangles.length seq
      = some (swapPass rectangles seq rectangles.length) := by
  unfold ShuffleColorRectSequence
  rw [Int.toNat_ofNat]
  exact shuffleLoop_eq seq rectangles hlen hr _ (le_refl _)

/-! ## Lemmas: the generation of the rectangles -/

theorem floatToInt_intCast (z : Int) : floatToInt (z : ℚ) = z := by
  unfold floatToInt
  split <;> simp

theorem floatToInt_of_nonneg {f : ℚ} (h : 0 ≤ f) : floatToInt f = ⌊f⌋ := by
  unfold floatToInt
  rw [if_pos h]

theorem mapM_eq_some_map {α β : Type} (f : α → Option β) (g : α → β) (l : List α)
    (h : ∀ a ∈ l, f a = some (g a)) : l.mapM f = some (l.map g) := by
  induction l with
  | nil => rfl
  | cons a l ih =>
    rw [List.mapM_cons, h a (List.mem_cons_self a l),
      ih (fun b hb => h b (List.mem_cons_of_mem a hb))]
    rfl

/-- For an integer count and a sequence that long, the generation succeeds and
stores `generatedRect` at every index. -/
theorem generate_intCast (z : Int) (rectWidth screenWidth screenHeight : ℚ) (seq : List Int)
    (rnd : Nat → Int) (hlen : z.toNat ≤ seq.length) :
    GenerateRandomColorRectSequence (z : ℚ) rectWidth screenWidth screenHeight seq rnd
      = some ((List.range z.toNat).map fun i =>
          generatedRect (z : ℚ) rectWidth screenWidth screenHeight rnd i (seq.getD i 0)) := by
  unfold GenerateRandomColorRectSequence
  simp only [floatToInt_intCast, Nat.ceil_intCast]
  apply mapM_eq_some_map
  intro i hi
  have hi' : i < z.toNat := List.mem_range.mp hi
  have hs : seq[i]? = some seq[i] := List.getElem?_eq_getElem (by omega)
  simp only [generateBody, hs, if_pos hi', List.getD_eq_getElem?_getD, Option.getD_some,
    generatedRect]

theorem length_idSeq (n : Nat) : (idSeq n).length = n := by simp [idSeq]

theorem regenerate_eq_some {z : Int} {seq : List Int} {rnd : Nat → Int} {st : MainState}
    (h : regenerate z seq rnd = some st) :
    st.rectCount = z ∧ st.rectSize = (screenWidth : ℚ) / (z : ℚ) := by
  unfold regenerate at h
  obtain ⟨rs, _, rfl⟩ := Option.map_eq_some'.mp h
  exact ⟨rfl, rfl⟩

theorem regenerate_isSome (z : Int) (seq : List Int) (rnd : Nat → Int)
    (hlen : z.toNat ≤ seq.length) :
    ∃ st, regenerate z seq rnd = some st ∧ st.rectCount = z := by
  simp only [regenerate, generate_intCast z _ _ _ seq rnd hlen, Option.map_some']
  exact ⟨_, rfl, rfl⟩

theorem onSpace_eq_some {f : FrameInput} {st st1 : MainState} (h : onSpace f st = some st1) :
    st1.rectCount = st.rectCount ∧ st1.rectSize = st.rectSize := by
  unfold onSpace at h
  split at h
  · obtain ⟨rs, _, rfl⟩ := Option.map_eq_some'.mp h
    exact ⟨rfl, rfl⟩
  · cases h; exact ⟨rfl, rfl⟩

theorem onUp_inv {f : FrameInput} {st st1 : MainState} (hinv : CountInv st)
    (h : onUp f st = some st1) : CountInv st1 := by
  unfold onUp at h
  split at h
  · split at h
    · next hlt =>
      obtain ⟨hc, hs⟩ := regenerate_eq_some h
      refine ⟨?_, ?_, ?_⟩
      · rw [hc]; have := hinv.1; omega
      · rw [hc]; omega
      · rw [hs, hc]
    · cases h
  · cases h; exact hinv

theorem onDown_inv {f : FrameInput} {st st1 : MainState} (hinv : CountInv st)
    (h : onDown f st = some st1) : CountInv st1 := by
  unfold onDown at h
  split at h
  · split at h
    · next hge =>
      obtain ⟨hc, hs⟩ := regenerate_eq_some h
      refine ⟨?_, ?_, ?_⟩
      · rw [hc]; omega
      · rw [hc]; have := hinv.2.1; omega
      · rw [hs, hc]
    · cases h; exact hinv
  · cases h; exact hinv

theorem mainUpdate_inv {f : FrameInput} {st st1 : MainState} (hinv : CountInv st)
    (h : mainUpdate f st = some st1) : CountInv st1 := by
  unfold mainUpdate at h
  obtain ⟨s1, h1, h⟩ := Option.bind_eq_some.mp h
  obtain ⟨s2, h2, h3⟩ := Option.bind_eq_some.mp h
  obtain ⟨hc, hs⟩ := onSpace_eq_some h1
  have hinv1 : CountInv s1 := by
    unfold CountInv; rw [hc, hs]; exact hinv
  exact onDown_inv (onUp_inv hinv1 h2) h3

theorem mainLoop_inv (frames : List FrameInput) :
    ∀ {st st1 : MainState}, CountInv st → mainLoop frames st = some st1 → CountInv st1 := by
  induction frames with
  | nil =>
    intro st st1 hinv h
    simp only [mainLoop, List.foldlM_nil, Option.pure_def, Option.some.injEq] at h
    rw [← h]; exact hinv
  | cons f frames ih =>
    intro st st1 hinv h
    simp only [mainLoop, List.foldlM_cons, Option.bind_eq_bind] at h
    obtain ⟨s1, h1, h2⟩ := Option.bind_eq_some.mp h
    exact ih (mainUpdate_inv hinv h1) h2

theorem mainRun_inv {seq : List Int} {rnd : Nat → Int} {frames : List FrameInput}
    {st : MainState} (h : mainRun seq rnd frames = some st) : CountInv st := by
  unfold mainRun at h
  obtain ⟨s0, h0, h1⟩ := Option.bind_eq_some.mp h
  obtain ⟨hc, hs⟩ := regenerate_eq_some h0
  have hinv0 : CountInv s0 := by
    refine ⟨?_, ?_, ?_⟩
    · rw [hc]; decide
    · rw [hc]; decide
    · rw [hs, hc]
  exact mainLoop_inv frames hinv0 h1

theorem getElem?_range_map {β : Type} (n : Nat) (f : Nat → β) (i : Nat) (d : β)
    (h : ((List.range n).map f)[i]? = some d) : i < n ∧ d = f i := by
  have hi : i < n := by
    have := (List.getElem?_eq_some_iff.mp h).1
    simpa using this
  refine ⟨hi, ?_⟩
  rw [List.getElem?_map, List.getElem?_range hi] at h
  simpa using h.symm

theorem abs_le_of_nonneg_le {x b : ℚ} (h0 : 0 ≤ x) (h1 : x ≤ b) : |x| ≤ b := by
  rw [abs_of_nonneg h0]; exact h1

namespace Binary32

theorem nearestEven_sub_le (m : ℚ) : |(nearestEven m : ℚ) - m| ≤ 1 / 2 := by
  have h0 := Int.floor_le m
  have h1 := Int.lt_floor_add_one m
  unfold nearestEven
  split_ifs <;> push_cast <;> rw [abs_le] <;> constructor <;> linarith

theorem nearestEven_eq_of_abs_lt (m : ℚ) (K : Int) (h : |m - (K : ℚ)| < 1 / 2) :
    nearestEven m = K := by
  have h1 := nearestEven_sub_le m
  rw [abs_le] at h1
  rw [abs_lt] at h
  have h2 : ((nearestEven m - K : Int) : ℚ) < 1 := by push_cast; linarith
  have h3 : (-1 : ℚ) < ((nearestEven m - K : Int) : ℚ) := by push_cast; linarith
  have h4 : nearestEven m - K < 1 := by exact_mod_cast h2
  have h5 : -1 < nearestEven m - K := by exact_mod_cast h3
  omega

theorem nearestEven_intCast (k : Int) : nearestEven (k : ℚ) = k :=
  nearestEven_eq_of_abs_lt _ _ (by simp)

theorem ulp_pos (x : ℚ) : 0 < ulp x := zpow_pos (by norm_num) _

theorem expo_eq {x : ℚ} {e : Int} (he : -126 ≤ e) (h1 : (2 : ℚ) ^ e ≤ |x|)
    (h2 : |x| < (2 : ℚ) ^ (e + 1)) : expo x = e := by
  have hpos : 0 < |x| := lt_of_lt_of_le (zpow_pos (by norm_num) _) h1
  have ha : e ≤ Int.log 2 |x| := by
    rw [← Int.zpow_le_iff_le_log (by norm_num) hpos]
    simpa using h1
  have hb : Int.log 2 |x| < e + 1 := by
    rw [← Int.lt_zpow_iff_log_lt (by norm_num) hpos]
    simpa using h2
  unfold expo
  omega

/-- Evaluation of a rounding: the exponent and the significand found by hand. -/
theorem rn_eq_of {x : ℚ} {e K : Int} (he : -126 ≤ e) (h1 : (2 : ℚ) ^ e ≤ |x|)
    (h2 : |x| < (2 : ℚ) ^ (e + 1)) (hK : |x / (2 : ℚ) ^ (e - 23) - (K : ℚ)| < 1 / 2) :
    rn x = (K : ℚ) * (2 : ℚ) ^ (e - 23) := by
  unfold rn ulp
  rw [expo_eq he h1 h2, nearestEven_eq_of_abs_lt _ K hK]

theorem expo_ge (x : ℚ) : -126 ≤ expo x := le_max_right _ _

/-- Every rounding is within half a unit in the last place. -/
theorem abs_rn_sub_le_ulp (x : ℚ) : |rn x - x| ≤ ulp x / 2 := by
  have hu := ulp_pos x
  have h := nearestEven_sub_le (x / ulp x)
  have e : rn x - x = ((nearestEven (x / ulp x) : ℚ) - x / ulp x) * ulp x := by
    unfold rn; field_simp
  rw [e, abs_mul, abs_of_pos hu]
  calc |(nearestEven (x / ulp x) : ℚ) - x / ulp x| * ulp x ≤ 1 / 2 * ulp x :=
        mul_le_mul_of_nonneg_right h hu.le
    _ = ulp x / 2 := by ring

theorem ulp_le (x : ℚ) (hx0 : x ≠ 0) :
    ulp x ≤ (2 : ℚ) ^ (-23 : Int) * |x| + (2 : ℚ) ^ (-149 : Int) := by
  unfold ulp expo
  rcases le_total (Int.log 2 |x|) (-126) with h | h
  · rw [max_eq_right h]
    have h0 : (0 : ℚ) ≤ (2 : ℚ) ^ (-23 : Int) * |x| :=
      mul_nonneg (zpow_nonneg (by norm_num) _) (abs_nonneg x)
    have e : (-126 : Int) - 23 = -149 := by norm_num
    rw [e]
    linarith
  · rw [max_eq_left h]
    have hx : 0 < |x| := abs_pos.mpr hx0
    have hl := Int.zpow_log_le_self (b := 2) (by norm_num) hx
    have e : (2 : ℚ) ^ (Int.log 2 |x| - 23)
        = (2 : ℚ) ^ (-23 : Int) * (2 : ℚ) ^ Int.log 2 |x| := by
      rw [← zpow_add₀ (by norm_num)]; congr 1; ring
    rw [e]
    have hl' : (2 : ℚ) ^ Int.log 2 |x| ≤ |x| := by simpa using hl
    have hp : (0 : ℚ) < (2 : ℚ) ^ (-23 : Int) := zpow_pos (by norm_num) _
    have hq : (0 : ℚ) < (2 : ℚ) ^ (-149 : Int) := zpow_pos (by norm_num) _
    nlinarith

theorem rn_zero : rn 0 = 0 := by
  unfold rn
  simp [nearestEven]

/-- The standard model of rounding: a relative error of at most `2^-24`, and
an absolute one of at most `2^-150` in the subnormal range. -/
theorem abs_rn_sub_le (x : ℚ) :
    |rn x - x| ≤ (2 : ℚ) ^ (-24 : Int) * |x| + (2 : ℚ) ^ (-150 : Int) := by
  by_cases hx0 : x = 0
  · subst hx0
    rw [rn_zero]
    norm_num
  have h1 := abs_rn_sub_le_ulp x
  have h2 := ulp_le x hx0
  have e1 : (2 : ℚ) ^ (-24 : Int) = (2 : ℚ) ^ (-23 : Int) / 2 := by norm_num
  have e2 : (2 : ℚ) ^ (-150 : Int) = (2 : ℚ) ^ (-149 : Int) / 2 := by norm_num
  have e3 : (2 : ℚ) ^ (-24 : Int) * |x| + (2 : ℚ) ^ (-150 : Int)
      = ((2 : ℚ) ^ (-23 : Int) * |x| + (2 : ℚ) ^ (-149 : Int)) / 2 := by
    rw [e1, e2]; ring
  rw [e3]
  generalize (2 : ℚ) ^ (-23 : Int) * |x| + (2 : ℚ) ^ (-149 : Int) = B at h2 ⊢
  linarith

/-- A value `k * 2^j` with `|k| < 2^24` and `j ≥ -149` is a binary32 value:
rounding leaves it as it is. -/
theorem rn_exact (k j : Int) (hk : |k| < 2 ^ 24) (hj : -149 ≤ j) :
    rn ((k : ℚ) * (2 : ℚ) ^ j) = (k : ℚ) * (2 : ℚ) ^ j := by
  by_cases hk0 : k = 0
  · subst hk0; simp [rn_zero]
  set x : ℚ := (k : ℚ) * (2 : ℚ) ^ j with hx
  have hjpos : (0 : ℚ) < (2 : ℚ) ^ j := zpow_pos (by norm_num) _
  have hkq : (0 : ℚ) < |(k : ℚ)| := abs_pos.mpr (by exact_mod_cast hk0)
  have hxabs : |x| = |(k : ℚ)| * (2 : ℚ) ^ j := by
    rw [hx, abs_mul, abs_of_pos hjpos]
  have hxpos : 0 < |x| := by rw [hxabs]; positivity
  -- the unit in the last place divides `2^j`
  have hle : expo x - 23 ≤ j := by
    unfold expo
    rcases le_total (Int.log 2 |x|) (-126) with h | h
    · rw [max_eq_right h]; omega
    · rw [max_eq_left h]
      have hl := Int.zpow_log_le_self (b := 2) (by norm_num) hxpos
      have hl' : (2 : ℚ) ^ Int.log 2 |x| ≤ |x| := by simpa using hl
      have hk' : |(k : ℚ)| < (2 : ℚ) ^ (24 : Int) := by
        have h24 : ((|k| : Int) : ℚ) < 16777216 := by exact_mod_cast hk
        rw [Int.cast_abs] at h24
        have e24 : (2 : ℚ) ^ (24 : Int) = 16777216 := by norm_num
        rw [e24]; exact h24
      have hlt : (2 : ℚ) ^ Int.log 2 |x| < (2 : ℚ) ^ (24 + j) := by
        calc (2 : ℚ) ^ Int.log 2 |x| ≤ |x| := hl'
          _ = |(k : ℚ)| * (2 : ℚ) ^ j := hxabs
          _ < (2 : ℚ) ^ (24 : Int) * (2 : ℚ) ^ j := mul_lt_mul_of_pos_right hk' hjpos
          _ = (2 : ℚ) ^ (24 + j) := by rw [← zpow_add₀ (by norm_num)]
      have := (zpow_lt_zpow_iff_right₀ (by norm_num : (1 : ℚ) < 2)).mp hlt
      omega
  obtain ⟨t, ht⟩ : ∃ t : Nat, j - (expo x - 23) = (t : Int) :=
    ⟨(j - (expo x - 23)).toNat, by omega⟩
  have hdiv : x / ulp x = ((k * 2 ^ t : Int) : ℚ) := by
    unfold ulp
    rw [hx, mul_div_assoc, ← zpow_sub₀ (by norm_num), ht]
    push_cast
    rw [zpow_natCast]
  unfold rn
  rw [hdiv, nearestEven_intCast]
  rw [← hdiv]
  field_simp [(ulp_pos x).ne']

/-- Integers of absolute value below `2^24` are binary32 values. -/
theorem rn_intCast (k : Int) (hk : |k| < 2 ^ 24) : rn (k : ℚ) = (k : ℚ) := by
  have := rn_exact k 0 hk (by norm_num)
  simpa using this

theorem fl_eq_some {x : ℚ} (h : |x| ≤ (2 : ℚ) ^ 100) : fl x = some (rn x) := by
  unfold fl
  rw [if_pos]
  have h1 := abs_rn_sub_le x
  have h2 : |rn x| ≤ |rn x - x| + |x| := by
    have := abs_add (rn x - x) x
    simpa using this
  have h3 : (2 : ℚ) ^ (-24 : Int) * |x| ≤ |x| := by
    have : (2 : ℚ) ^ (-24 : Int) ≤ 1 := by norm_num
    nlinarith [abs_nonneg x]
  have h4 : (2 : ℚ) ^ (-150 : Int) ≤ 1 := by norm_num
  have h5 : (2 : ℚ) ^ 100 * 2 + 1 < (2 : ℚ) ^ 128 := by norm_num
  linarith

theorem eta_pos : 0 < eta := zpow_pos (by norm_num) _

theorem eta_le : eta ≤ 1 / 10 ^ 45 := by
  unfold eta
  norm_num

theorem abs_rn_sub_le_eta (x : ℚ) : |rn x - x| ≤ |x| / 16777216 + eta := by
  have h := abs_rn_sub_le x
  have e : (2 : ℚ) ^ (-24 : Int) * |x| = |x| / 16777216 := by
    have : (2 : ℚ) ^ (-24 : Int) = 1 / 16777216 := by norm_num
    rw [this]; ring
  rw [e] at h
  exact h

theorem abs_rn_le (x : ℚ) : |rn x| ≤ 2 * |x| + 1 := by
  have h1 := abs_rn_sub_le_eta x
  have h2 : |rn x| ≤ |rn x - x| + |x| := by
    have := abs_add (rn x - x) x
    simpa using this
  have h3 := eta_le
  have h4 := abs_nonneg x
  have h5 : (1 : ℚ) / 10 ^ 45 ≤ 1 := by norm_num
  linarith

theorem nearestEven_nonneg {m : ℚ} (h : 0 ≤ m) : 0 ≤ nearestEven m := by
  have h0 : 0 ≤ ⌊m⌋ := Int.floor_nonneg.mpr h
  unfold nearestEven
  split_ifs <;> omega

theorem rn_nonneg {x : ℚ} (h : 0 ≤ x) : 0 ≤ rn x := by
  unfold rn
  have h1 : 0 ≤ x / ulp x := div_nonneg h (ulp_pos x).le
  have h2 : (0 : ℚ) ≤ (nearestEven (x / ulp x) : ℚ) := by
    exact_mod_cast nearestEven_nonneg h1
  exact mul_nonneg h2 (ulp_pos x).le

theorem abs_div_ulp_lt (x : ℚ) : |x / ulp x| < 16777216 := by
  by_cases hx0 : x = 0
  · subst hx0; simp
  have hx : 0 < |x| := abs_pos.mpr hx0
  have hu := ulp_pos x
  rw [abs_div, abs_of_pos hu, div_lt_iff₀ hu]
  have h1 := Int.lt_zpow_succ_log_self (b := 2) (by norm_num) |x|
  have h1' : |x| < (2 : ℚ) ^ (Int.log 2 |x| + 1) := by simpa using h1
  have h2 : (2 : ℚ) ^ (Int.log 2 |x| + 1) ≤ (2 : ℚ) ^ (expo x + 1) := by
    apply zpow_le_zpow_right₀ (by norm_num)
    have : Int.log 2 |x| ≤ expo x := le_max_left _ _
    omega
  have h3 : (16777216 : ℚ) * ulp x = (2 : ℚ) ^ (expo x + 1) := by
    unfold ulp
    have : (16777216 : ℚ) = (2 : ℚ) ^ (24 : Int) := by norm_num
    rw [this, ← zpow_add₀ (by norm_num)]
    congr 1; ring
  rw [h3]
  exact lt_of_lt_of_le h1' h2

/-- Rounding a binary32 value again leaves it as it is. -/
theorem rn_idem (x : ℚ) : rn (rn x) = rn x := by
  have hm := abs_div_ulp_lt x
  have hK := nearestEven_sub_le (x / ulp x)
  set K := nearestEven (x / ulp x) with hKdef
  have hKabs : |(K : ℚ)| < 16777216 + 1 := by
    have : |(K : ℚ)| ≤ |(K : ℚ) - x / ulp x| + |x / ulp x| := by
      have := abs_add ((K : ℚ) - x / ulp x) (x / ulp x)
      simpa using this
    linarith
  have hKint : |K| ≤ 16777216 := by
    have : ((|K| : Int) : ℚ) < ((16777216 + 1 : Int) : ℚ) := by
      rw [Int.cast_abs]; push_cast; linarith
    have : |K| < 16777216 + 1 := by exact_mod_cast this
    omega
  have hrn : rn x = (K : ℚ) * (2 : ℚ) ^ (expo x - 23) := rfl
  have he := expo_ge x
  rcases lt_or_eq_of_le hKint with hlt | heq
  · rw [hrn]
    exact rn_exact K (expo x - 23) (by simpa using hlt) (by omega)
  · have hstep : (2 : ℚ) ^ (expo x - 23) * 2 = (2 : ℚ) ^ (expo x - 22) := by
      have : expo x - 22 = (expo x - 23) + 1 := by ring
      rw [this, zpow_add₀ (by norm_num)]; norm_num
    rcases abs_eq (by norm_num : (0 : Int) ≤ 16777216) |>.mp heq with h | h
    · have e : rn x = ((8388608 : Int) : ℚ) * (2 : ℚ) ^ (expo x - 22) := by
        rw [hrn, h, ← hstep]; push_cast; ring
      rw [e]
      exact rn_exact 8388608 (expo x - 22) (by norm_num) (by omega)
    · have e : rn x = ((-8388608 : Int) : ℚ) * (2 : ℚ) ^ (expo x - 22) := by
        rw [hrn, h, ← hstep]; push_cast; ring
      rw [e]
      exact rn_exact (-8388608) (expo x - 22) (by norm_num) (by omega)

/-! ### The operations -/

theorem add_eq_some {a b : ℚ} (h : |a + b| ≤ (2 : ℚ) ^ 100) : add a b = some (rn (a + b)) :=
  fl_eq_some h

theorem sub_eq_some {a b : ℚ} (h : |a - b| ≤ (2 : ℚ) ^ 100) : sub a b = some (rn (a - b)) :=
  fl_eq_some h

theorem mul_eq_some {a b : ℚ} (h : |a * b| ≤ (2 : ℚ) ^ 100) : mul a b = some (rn (a * b)) :=
  fl_eq_some h

theorem div_eq_some {a b : ℚ} (hb : b ≠ 0) (h : |a / b| ≤ (2 : ℚ) ^ 100) :
    div a b = some (rn (a / b)) := by
  unfold div
  rw [if_neg hb]
  exact fl_eq_some h

theorem ofInt_eq_some {k : Int} (hk : |k| < 2 ^ 24) : ofInt k = some (k : ℚ) := by
  unfold ofInt
  have hq : |(k : ℚ)| ≤ (2 : ℚ) ^ 100 := by
    have : ((|k| : Int) : ℚ) < ((2 ^ 24 : Int) : ℚ) := by exact_mod_cast hk
    rw [Int.cast_abs] at this
    have h2 : (((2 : Int) ^ 24 : Int) : ℚ) ≤ (2 : ℚ) ^ 100 := by norm_num
    linarith
  rw [fl_eq_some hq, rn_intCast k hk]

theorem sub_zero_of_rn {a : ℚ} (ha : rn a = a) (h : |a| ≤ (2 : ℚ) ^ 100) :
    sub a 0 = some a := by
  rw [sub_eq_some (by simpa using h)]
  simp [ha]

theorem add_zero_of_rn {a : ℚ} (ha : rn a = a) (h : |a| ≤ (2 : ℚ) ^ 100) :
    add a 0 = some a := by
  rw [add_eq_some (by simpa using h)]
  simp [ha]

theorem toInt_eq_some {x : ℚ} (h0 : 0 ≤ x) (h1 : x < 2147483648) :
    toInt x = some ⌊x⌋ := by
  have hf : floatToInt x = ⌊x⌋ := floatToInt_of_nonneg h0
  have hlo : 0 ≤ ⌊x⌋ := Int.floor_nonneg.mpr h0
  have hhi : ⌊x⌋ < 2147483648 := by
    rw [Int.floor_lt]; exact_mod_cast h1
  unfold toInt
  rw [hf, if_pos]
  unfold INT_MAX
  omega

theorem quotient_bounds (s : Int) (n : Nat) (hn : 2 ≤ n) (h0 : 0 ≤ s) (h1 : s ≤ (n : Int) - 1) :
    0 ≤ (s : ℚ) / ((n : ℚ) - 1) ∧ (s : ℚ) / ((n : ℚ) - 1) ≤ 1 := by
  have hn' : (0 : ℚ) < (n : ℚ) - 1 := by
    have : (2 : ℚ) ≤ (n : ℚ) := by exact_mod_cast hn
    linarith
  have hs : (0 : ℚ) ≤ (s : ℚ) := by exact_mod_cast h0
  have hs1 : (s : ℚ) ≤ (n : ℚ) - 1 := by
    have : ((s : Int) : ℚ) ≤ (((n : Int) - 1 : Int) : ℚ) := by exact_mod_cast h1
    push_cast at this; exact this
  exact ⟨div_nonneg hs hn'.le, (div_le_one hn').mpr hs1⟩

theorem remapValue_nonneg (s : Int) (n : Nat) (H : ℚ) (hn : 2 ≤ n) (h0 : 0 ≤ s)
    (h1 : s ≤ (n : Int) - 1) (hH : 0 ≤ H) : 0 ≤ remapValue s n H := by
  unfold remapValue
  exact rn_nonneg (mul_nonneg (rn_nonneg (quotient_bounds s n hn h0 h1).1) hH)

theorem abs_rn_quotient_le (s : Int) (n : Nat) (hn : 2 ≤ n) (h0 : 0 ≤ s)
    (h1 : s ≤ (n : Int) - 1) : |rn ((s : ℚ) / ((n : ℚ) - 1))| ≤ 3 := by
  obtain ⟨hq0, hq1⟩ := quotient_bounds s n hn h0 h1
  have := abs_rn_le ((s : ℚ) / ((n : ℚ) - 1))
  rw [abs_of_nonneg hq0] at this
  linarith

theorem abs_product_le (s : Int) (n : Nat) (H : ℚ) (hn : 2 ≤ n) (h0 : 0 ≤ s)
    (h1 : s ≤ (n : Int) - 1) (hH : 0 ≤ H) (hH2 : H ≤ 8388608) :
    |rn ((s : ℚ) / ((n : ℚ) - 1)) * H| ≤ 25165824 := by
  have hq := abs_rn_quotient_le s n hn h0 h1
  rw [abs_mul, abs_of_nonneg hH]
  have : |rn ((s : ℚ) / ((n : ℚ) - 1))| * H ≤ 3 * 8388608 :=
    mul_le_mul hq hH2 hH (by norm_num)
  linarith

theorem remapValue_lt (s : Int) (n : Nat) (H : ℚ) (hn : 2 ≤ n) (h0 : 0 ≤ s)
    (h1 : s ≤ (n : Int) - 1) (hH : 0 ≤ H) (hH2 : H ≤ 8388608) :
    remapValue s n H < 2147483648 := by
  have hp := abs_product_le s n H hn h0 h1 hH hH2
  have := abs_rn_le (rn ((s : ℚ) / ((n : ℚ) - 1)) * H)
  have h3 : remapValue s n H ≤ |remapValue s n H| := le_abs_self _
  unfold remapValue at h3 ⊢
  linarith

/-- The computation of line 140 succeeds on the counts and heights below `2^24`
and `2^23`, and gives the floor of the binary32 remap. -/
theorem rectHeight_eq (s : Int) (n : Nat) (H : ℚ) (hn : 2 ≤ n) (hn2 : n < 16777216)
    (h0 : 0 ≤ s) (h1 : s ≤ (n : Int) - 1) (hH : 0 ≤ H) (hH2 : H ≤ 8388608) (hHf : rn H = H) :
    rectHeight s (n : ℚ) H = some ⌊remapValue s n H⌋ := by
  have hs24 : |s| < 2 ^ 24 := by rw [abs_of_nonneg h0]; omega
  have hm24 : |((n : Int) - 1)| < 2 ^ 24 := by rw [abs_of_nonneg (by omega)]; omega
  have hmq : (n : ℚ) - 1 = (((n : Int) - 1 : Int) : ℚ) := by push_cast; ring
  have hrm : rn ((n : ℚ) - 1) = (n : ℚ) - 1 := by rw [hmq]; exact rn_intCast _ hm24
  have hn' : (n : ℚ) - 1 ≠ 0 := by
    have : (2 : ℚ) ≤ (n : ℚ) := by exact_mod_cast hn
    intro h; linarith
  have hmle : |(n : ℚ) - 1| ≤ (2 : ℚ) ^ 100 := by
    have : (n : ℚ) < 16777216 := by exact_mod_cast hn2
    have h2 : (2 : ℚ) ≤ (n : ℚ) := by exact_mod_cast hn
    rw [abs_of_nonneg (by linarith)]
    have : (16777216 : ℚ) ≤ (2 : ℚ) ^ 100 := by norm_num
    linarith
  have hsle : |(s : ℚ)| ≤ (2 : ℚ) ^ 100 := by
    have : ((|s| : Int) : ℚ) < ((2 ^ 24 : Int) : ℚ) := by exact_mod_cast hs24
    rw [Int.cast_abs] at this
    have h2 : (((2 : Int) ^ 24 : Int) : ℚ) ≤ (2 : ℚ) ^ 100 := by norm_num
    linarith
  obtain ⟨hq0, hq1⟩ := quotient_bounds s n hn h0 h1
  have hqle : |(s : ℚ) / ((n : ℚ) - 1)| ≤ (2 : ℚ) ^ 100 := by
    rw [abs_of_nonneg hq0]
    have : (1 : ℚ) ≤ (2 : ℚ) ^ 100 := by norm_num
    linarith
  have hHle : |H| ≤ (2 : ℚ) ^ 100 := by
    rw [abs_of_nonneg hH]
    have : (8388608 : ℚ) ≤ (2 : ℚ) ^ 100 := by norm_num
    linarith
  have hple : |rn ((s : ℚ) / ((n : ℚ) - 1)) * H| ≤ (2 : ℚ) ^ 100 := by
    have := abs_product_le s n H hn h0 h1 hH hH2
    have h2 : (25165824 : ℚ) ≤ (2 : ℚ) ^ 100 := by norm_num
    linarith
  have hrle : |rn (rn ((s : ℚ) / ((n : ℚ) - 1)) * H)| ≤ (2 : ℚ) ^ 100 := by
    have := abs_rn_le (rn ((s : ℚ) / ((n : ℚ) - 1)) * H)
    have h1 := abs_product_le s n H hn h0 h1 hH hH2
    have h2 : (2 * 25165824 + 1 : ℚ) ≤ (2 : ℚ) ^ 100 := by norm_num
    linarith
  unfold rectHeight Remap
  rw [ofInt_eq_some hs24]
  simp only [Option.some_bind]
  rw [sub_eq_some hmle]
  simp only [Option.some_bind, hrm]
  rw [sub_zero_of_rn (rn_intCast s hs24) hsle, sub_zero_of_rn hrm hmle]
  simp only [Option.some_bind]
  rw [div_eq_some hn' hqle, sub_zero_of_rn hHf hHle]
  simp only [Option.some_bind]
  rw [mul_eq_some hple]
  simp only [Option.some_bind]
  rw [add_zero_of_rn (rn_idem _) hrle]
  simp only [Option.some_bind]
  exact toInt_eq_some (remapValue_nonneg s n H hn h0 h1 hH) (remapValue_lt s n H hn h0 h1 hH hH2)

/-- Evaluation of the rounding of a positive value. -/
theorem rn_eq_of_pos {x : ℚ} {e K : Int} (hx : 0 < x) (he : -126 ≤ e)
    (h1 : (2 : ℚ) ^ e ≤ x) (h2 : x < (2 : ℚ) ^ (e + 1))
    (hK1 : (K : ℚ) - 1 / 2 < x / (2 : ℚ) ^ (e - 23))
    (hK2 : x / (2 : ℚ) ^ (e - 23) < (K : ℚ) + 1 / 2) :
    rn x = (K : ℚ) * (2 : ℚ) ^ (e - 23) := by
  apply rn_eq_of he
  · rw [abs_of_pos hx]; exact h1
  · rw [abs_of_pos hx]; exact h2
  · rw [abs_lt]; constructor <;> linarith

/-- The binary32 remap is within three roundings of the exact affine value. -/
theorem abs_remapValue_sub_le (s : Int) (n : Nat) (H : ℚ) (hn : 2 ≤ n) (h0 : 0 ≤ s)
    (h1 : s ≤ (n : Int) - 1) (hH : 0 ≤ H) (hH2 : H ≤ 8388608) :
    |remapValue s n H - (s : ℚ) * H / ((n : ℚ) - 1)|
      ≤ 3 * ((s : ℚ) * H / ((n : ℚ) - 1)) / 16777216 + 1 / 10 ^ 38 := by
  obtain ⟨hq0, hq1⟩ := quotient_bounds s n hn h0 h1
  set q : ℚ := (s : ℚ) / ((n : ℚ) - 1) with hq
  have he : (s : ℚ) * H / ((n : ℚ) - 1) = q * H := by rw [hq]; ring
  rw [he]
  have hη := eta_le
  have hη0 := eta_pos
  have hqt := abs_rn_sub_le_eta q
  rw [abs_of_nonneg hq0] at hqt
  have hqt0 : 0 ≤ rn q := rn_nonneg hq0
  have hp0 : 0 ≤ rn q * H := mul_nonneg hqt0 hH
  have hpt := abs_rn_sub_le_eta (rn q * H)
  rw [abs_of_nonneg hp0] at hpt
  have hpe : |rn q * H - q * H| ≤ q * H / 16777216 + H * eta := by
    have : rn q * H - q * H = (rn q - q) * H := by ring
    rw [this, abs_mul, abs_of_nonneg hH]
    have := mul_le_mul_of_nonneg_right hqt hH
    linarith
  have hqH : 0 ≤ q * H := mul_nonneg hq0 hH
  have hHη : H * eta ≤ 8388608 * eta := mul_le_mul_of_nonneg_right hH2 hη0.le
  have htri : |remapValue s n H - q * H|
      ≤ |rn (rn q * H) - rn q * H| + |rn q * H - q * H| := by
    have := abs_add (rn (rn q * H) - rn q * H) (rn q * H - q * H)
    unfold remapValue
    rw [← hq]
    simpa using this
  have hp_le : rn q * H ≤ q * H + (q * H / 16777216 + H * eta) := by
    have := (abs_le.mp hpe).2
    linarith
  have hsmall : (8388608 : ℚ) * (1 / 10 ^ 45) + (8388608 * (1 / 10 ^ 45)) / 16777216 + 1 / 10 ^ 45
      ≤ 1 / 10 ^ 38 := by norm_num
  linarith

/-- What the loop stores as height is within one unit, and a relative `2^-22`,
of the exact affine value. -/
theorem rectHeight_bounds (s : Int) (n : Nat) (H : ℚ) (hn : 2 ≤ n) (hn2 : n < 16777216)
    (h0 : 0 ≤ s) (h1 : s ≤ (n : Int) - 1) (hH : 0 ≤ H) (hH2 : H ≤ 8388608) (hHf : rn H = H) :
    ∃ h : Int, rectHeight s (n : ℚ) H = some h ∧ 0 ≤ h ∧
      (h : ℚ) ≤ (s : ℚ) * H / ((n : ℚ) - 1) * (1 + 1 / 4194304) ∧
      (s : ℚ) * H / ((n : ℚ) - 1) * (1 - 1 / 4194304) - 1 < (h : ℚ) := by
  refine ⟨⌊remapValue s n H⌋, rectHeight_eq s n H hn hn2 h0 h1 hH hH2 hHf, ?_, ?_, ?_⟩
  · exact Int.floor_nonneg.mpr (remapValue_nonneg s n H hn h0 h1 hH)
  · have hb := abs_remapValue_sub_le s n H hn h0 h1 hH hH2
    have hr0 := remapValue_nonneg s n H hn h0 h1 hH
    obtain ⟨hq0, _⟩ := quotient_bounds s n hn h0 h1
    have he0 : 0 ≤ (s : ℚ) * H / ((n : ℚ) - 1) := by
      have : (s : ℚ) * H / ((n : ℚ) - 1) = (s : ℚ) / ((n : ℚ) - 1) * H := by ring
      rw [this]; exact mul_nonneg hq0 hH
    set e : ℚ := (s : ℚ) * H / ((n : ℚ) - 1) with hedef
    have hfl := Int.floor_le (remapValue s n H)
    have hup := (abs_le.mp hb).2
    by_cases hc : 1 / 10 ^ 38 ≤ e / 16777216
    · linarith
    · have hlt : remapValue s n H < 1 := by
        have : e / 16777216 < 1 / 10 ^ 38 := not_le.mp hc
        have h38 : (1 : ℚ) / 10 ^ 38 * 16777216 + 4 * (1 / 10 ^ 38) < 1 := by norm_num
        linarith
      have hz : ⌊remapValue s n H⌋ = 0 := by
        rw [Int.floor_eq_iff]; constructor
        · simpa using hr0
        · simpa using hlt
      rw [hz]
      have : (0 : ℚ) ≤ e * (1 + 1 / 4194304) := mul_nonneg he0 (by norm_num)
      simpa using this
  · have hb := abs_remapValue_sub_le s n H hn h0 h1 hH hH2
    have hr0 := remapValue_nonneg s n H hn h0 h1 hH
    obtain ⟨hq0, _⟩ := quotient_bounds s n hn h0 h1
    have he0 : 0 ≤ (s : ℚ) * H / ((n : ℚ) - 1) := by
      have : (s : ℚ) * H / ((n : ℚ) - 1) = (s : ℚ) / ((n : ℚ) - 1) * H := by ring
      rw [this]; exact mul_nonneg hq0 hH
    set e : ℚ := (s : ℚ) * H / ((n : ℚ) - 1) with hedef
    have hfl := Int.lt_floor_add_one (remapValue s n H)
    have hlo := (abs_le.mp hb).1
    have hfl0 : (0 : ℚ) ≤ (⌊remapValue s n H⌋ : ℚ) := by
      exact_mod_cast Int.floor_nonneg.mpr hr0
    by_cases hc : 1 / 10 ^ 38 ≤ e / 16777216
    · linarith
    · have : e / 16777216 < 1 / 10 ^ 38 := not_le.mp hc
      have h38 : (1 : ℚ) / 10 ^ 38 * 16777216 < 1 := by norm_num
      have : e * (1 - 1 / 4194304) ≤ e := by nlinarith
      linarith

theorem remapValue_19_20 : remapValue 19 20 (675 / 2) = 675 / 2 := by
  unfold remapValue
  have e1 : ((19 : Int) : ℚ) / (((20 : Nat) : ℚ) - 1) = ((1 : Int) : ℚ) := by norm_num
  rw [e1, rn_intCast 1 (by norm_num)]
  have e2 : ((1 : Int) : ℚ) * (675 / 2) = ((675 : Int) : ℚ) * (2 : ℚ) ^ (-1 : Int) := by norm_num
  rw [e2, rn_exact 675 (-1) (by norm_num) (by norm_num)]
  norm_num

theorem remapValue_zero (n : Nat) (H : ℚ) : remapValue 0 n H = 0 := by
  unfold remapValue
  simp [rn_zero]

/-- At the count 28 the value 10 is remapped to `16383999/131072`, just under
the exact `125`. -/
theorem remapValue_10_28 : remapValue 10 28 (675 / 2) = 16383999 / 131072 := by
  unfold remapValue
  have e1 : ((10 : Int) : ℚ) / (((28 : Nat) : ℚ) - 1) = 10 / 27 := by norm_num
  have q : rn (10 / 27) = ((12427567 : Int) : ℚ) * (2 : ℚ) ^ ((-2 : Int) - 23) := by
    apply rn_eq_of_pos <;> norm_num
  have p : rn (((12427567 : Int) : ℚ) * (2 : ℚ) ^ ((-2 : Int) - 23) * (675 / 2))
      = ((16383999 : Int) : ℚ) * (2 : ℚ) ^ ((6 : Int) - 23) := by
    apply rn_eq_of_pos <;> norm_num
  rw [e1, q, p]
  norm_num

theorem pow_bounds :
    (16777216 : ℚ) * 2 ^ 40 ≤ 2 ^ 64 ∧ (2 : ℚ) ^ 64 ≤ 2 ^ 100 ∧
    (2 : ℚ) ^ 40 + (2 * 2 ^ 64 + 1) ≤ 2 ^ 66 ∧ (2 : ℚ) ^ 66 ≤ 2 ^ 100 ∧
    (2 * (2 : ℚ) ^ 66 + 1) * (1 / 2) ≤ 2 ^ 67 ∧ (2 : ℚ) ^ 67 ≤ 2 ^ 100 ∧
    (2 * (2 : ℚ) ^ 67 + 1) + (2 * 2 ^ 64 + 1) ≤ 2 ^ 100 := by
  norm_num

theorem abs_natCast_mul_le (i n : Nat) (w : ℚ) (hi : i ≤ n) (hn2 : n < 16777216)
    (hw : |w| ≤ 2 ^ 40) : |(i : ℚ) * w| ≤ 2 ^ 64 := by
  have hi' : (i : ℚ) ≤ 16777216 := by
    have : (i : ℚ) ≤ (n : ℚ) := by exact_mod_cast hi
    have : (n : ℚ) < 16777216 := by exact_mod_cast hn2
    linarith
  have hi0 : (0 : ℚ) ≤ (i : ℚ) := Nat.cast_nonneg i
  rw [abs_mul, abs_of_nonneg hi0]
  have := mul_le_mul hi' hw (abs_nonneg w) (by norm_num)
  have h2 := pow_bounds.1
  linarith

theorem abs_startX_le (n : Nat) (w W : ℚ) (hn2 : n < 16777216) (hw : |w| ≤ 2 ^ 40)
    (hW : |W| ≤ 2 ^ 40) :
    |W - rn ((n : ℚ) * w)| ≤ 2 ^ 66 ∧
    |rn (W - rn ((n : ℚ) * w)) * (1 / 2)| ≤ 2 ^ 67 ∧
    |startXValue n w W| ≤ 2 * 2 ^ 67 + 1 := by
  have hP := abs_natCast_mul_le n n w (le_refl n) hn2 hw
  have hPt := abs_rn_le ((n : ℚ) * w)
  have hD : |W - rn ((n : ℚ) * w)| ≤ 2 ^ 66 := by
    have := abs_sub W (rn ((n : ℚ) * w))
    have h2 := pow_bounds.2.2.1
    linarith
  have hDt := abs_rn_le (W - rn ((n : ℚ) * w))
  have hS : |rn (W - rn ((n : ℚ) * w)) * (1 / 2)| ≤ 2 ^ 67 := by
    rw [abs_mul, abs_of_pos (by norm_num : (0 : ℚ) < 1 / 2)]
    have h2 := pow_bounds.2.2.2.2.1
    nlinarith
  have hSt := abs_rn_le (rn (W - rn ((n : ℚ) * w)) * (1 / 2))
  refine ⟨hD, hS, ?_⟩
  unfold startXValue
  linarith

theorem floor_remapValue_lt (s : Int) (n : Nat) (H : ℚ) (hn : 2 ≤ n) (h0 : 0 ≤ s)
    (h1 : s ≤ (n : Int) - 1) (hH : 0 ≤ H) (hH2 : H ≤ 8388608) :
    0 ≤ ⌊remapValue s n H⌋ ∧ ⌊remapValue s n H⌋ < 2 ^ 24 := by
  have hr0 := remapValue_nonneg s n H hn h0 h1 hH
  have hb := abs_remapValue_sub_le s n H hn h0 h1 hH hH2
  obtain ⟨hq0, hq1⟩ := quotient_bounds s n hn h0 h1
  have he : (s : ℚ) * H / ((n : ℚ) - 1) ≤ 8388608 := by
    have : (s : ℚ) * H / ((n : ℚ) - 1) = (s : ℚ) / ((n : ℚ) - 1) * H := by ring
    rw [this]
    have := mul_le_mul hq1 hH2 hH (by norm_num)
    linarith
  have he0 : 0 ≤ (s : ℚ) * H / ((n : ℚ) - 1) := by
    have : (s : ℚ) * H / ((n : ℚ) - 1) = (s : ℚ) / ((n : ℚ) - 1) * H := by ring
    rw [this]; exact mul_nonneg hq0 hH
  have hup := (abs_le.mp hb).2
  have hlt : remapValue s n H < 16777216 := by
    have : (1 : ℚ) / 10 ^ 38 ≤ 1 := by norm_num
    linarith
  refine ⟨Int.floor_nonneg.mpr hr0, ?_⟩
  have : ⌊remapValue s n H⌋ < 16777216 := by
    rw [Int.floor_lt]; exact_mod_cast hlt
  simpa using this

/-- The body of the loop at an index inside the array, for a value in range. -/
theorem generateBody_rounded_eq (n : Nat) (w W H : ℚ) (seq : List Int) (rnd : Nat → Int) (i : Nat)
    (s : Int) (hn : 2 ≤ n) (hn2 : n < 16777216) (hw : |w| ≤ 2 ^ 40) (hW : |W| ≤ 2 ^ 40)
    (hH : 0 ≤ H) (hH2 : H ≤ 8388608) (hHf : rn H = H)
    (hi : i < n) (hs : seq[i]? = some s) (h0 : 0 ≤ s) (h1 : s ≤ (n : Int) - 1) :
    generateBody (n : ℚ) w H (startXValue n w W) n seq rnd i
      = some (roundedRect n w W H rnd i s) := by
  have hi24 : |(i : Int)| < 2 ^ 24 := by rw [abs_of_nonneg (by omega)]; omega
  obtain ⟨hf0, hf1⟩ := floor_remapValue_lt s n H hn h0 h1 hH hH2
  have hh24 : |⌊remapValue s n H⌋| < 2 ^ 24 := by rw [abs_of_nonneg hf0]; exact hf1
  have hM := abs_natCast_mul_le i n w hi.le hn2 hw
  have hMt := abs_rn_le ((i : ℚ) * w)
  obtain ⟨_, _, hSX⟩ := abs_startX_le n w W hn2 hw hW
  have hsum : |startXValue n w W + rn ((i : ℚ) * w)| ≤ 2 ^ 100 := by
    have := abs_add (startXValue n w W) (rn ((i : ℚ) * w))
    have h2 := pow_bounds.2.2.2.2.2.2
    linarith
  have hy : |H - ((⌊remapValue s n H⌋ : Int) : ℚ)| ≤ 2 ^ 100 := by
    have hfq0 : (0 : ℚ) ≤ ((⌊remapValue s n H⌋ : Int) : ℚ) := by exact_mod_cast hf0
    have hfq1 : ((⌊remapValue s n H⌋ : Int) : ℚ) < 16777216 := by
      have : ((⌊remapValue s n H⌋ : Int) : ℚ) < ((2 ^ 24 : Int) : ℚ) := by exact_mod_cast hf1
      simpa using this
    rw [abs_le]
    have : (16777216 : ℚ) ≤ 2 ^ 100 := by norm_num
    constructor <;> linarith
  have hM100 : |(i : ℚ) * w| ≤ 2 ^ 100 := le_trans hM pow_bounds.2.1
  unfold generateBody
  simp only [hs, if_pos hi]
  rw [rectHeight_eq s n H hn hn2 h0 h1 hH hH2 hHf]
  simp only [Option.some_bind]
  rw [show ofInt ((i : Nat) : Int) = some (((i : Nat) : Int) : ℚ) from ofInt_eq_some hi24]
  simp only [Option.some_bind, Int.cast_natCast]
  rw [mul_eq_some hM100]
  simp only [Option.some_bind]
  rw [add_eq_some hsum]
  simp only [Option.some_bind]
  rw [ofInt_eq_some hh24]
  simp only [Option.some_bind]
  rw [sub_eq_some hy]
  simp only [Option.some_bind, roundedRect]

/-- For a count below `2^24`, a sequence in range and arguments of moderate
size, the generation returns, with `roundedRect` at every index. -/
theorem generate_rounded_eq (n : Nat) (w W H : ℚ) (seq : List Int) (rnd : Nat → Int)
    (hn : 2 ≤ n) (hn2 : n < 16777216) (hw : |w| ≤ 2 ^ 40) (hW : |W| ≤ 2 ^ 40)
    (hH : 0 ≤ H) (hH2 : H ≤ 8388608) (hHf : rn H = H)
    (hlen : seq.length = n) (hr : InRange seq n) :
    GenerateRandomColorRectSequence (n : ℚ) w W H seq rnd
      = some ((List.range n).map fun i => roundedRect n w W H rnd i (seq.getD i 0)) := by
  have hnq0 : (0 : ℚ) ≤ (n : ℚ) := Nat.cast_nonneg n
  have hnq : (n : ℚ) < 2147483648 := by
    have : (n : ℚ) < 16777216 := by exact_mod_cast hn2
    linarith
  have hP := abs_natCast_mul_le n n w (le_refl n) hn2 hw
  obtain ⟨hD, hS, _⟩ := abs_startX_le n w W hn2 hw hW
  have htake : ((List.range ⌈(n : ℚ)⌉₊).takeWhile fun (i : Nat) => decide (rn (i : ℚ) < (n : ℚ)))
      = List.range n := by
    rw [Nat.ceil_natCast, List.takeWhile_eq_self_iff]
    intro i hi
    have hi' : i < n := List.mem_range.mp hi
    have hi24 : |(i : Int)| < 2 ^ 24 := by rw [abs_of_nonneg (by omega)]; omega
    have e : rn (i : ℚ) = (i : ℚ) := by
      have := rn_intCast (i : Int) hi24
      simpa using this
    rw [e]
    simpa using hi'
  unfold GenerateRandomColorRectSequence
  rw [toInt_eq_some hnq0 hnq]
  simp only [Option.some_bind, Int.floor_natCast, Int.toNat_ofNat]
  rw [mul_eq_some (le_trans hP pow_bounds.2.1)]
  simp only [Option.some_bind]
  rw [sub_eq_some (le_trans hD pow_bounds.2.2.2.1)]
  simp only [Option.some_bind]
  rw [mul_eq_some (le_trans hS pow_bounds.2.2.2.2.2.1), htake]
  simp only [Option.some_bind]
  apply mapM_eq_some_map
  intro i hi
  have hi' : i < n := List.mem_range.mp hi
  have hs : seq[i]? = some seq[i] := List.getElem?_eq_getElem (by omega)
  obtain ⟨h0, h1⟩ := hr.toNat_lt hs
  have h1' : seq[i] ≤ (n : Int) - 1 := by omega
  have hgd : seq.getD i 0 = seq[i] := by
    rw [List.getD_eq_getElem?_getD, hs]; rfl
  rw [hgd]
  exact generateBody_rounded_eq n w W H seq rnd i seq[i] hn hn2 hw hW hH hH2 hHf hi' hs h0 h1'

theorem generate_rounded_getElem? (n : Nat) (w W H : ℚ) (seq : List Int) (rnd : Nat → Int)
    (hn : 2 ≤ n) (hn2 : n < 16777216) (hw : |w| ≤ 2 ^ 40) (hW : |W| ≤ 2 ^ 40)
    (hH : 0 ≤ H) (hH2 : H ≤ 8388608) (hHf : rn H = H)
    (hlen : seq.length = n) (hr : InRange seq n) :
    ∃ out, GenerateRandomColorRectSequence (n : ℚ) w W H seq rnd = some out ∧
      out.length = n ∧
      ∀ (i : Nat) (s : Int), seq[i]? = some s →
        out[i]? = some (roundedRect n w W H rnd i s) := by
  refine ⟨_, generate_rounded_eq n w W H seq rnd hn hn2 hw hW hH hH2 hHf hlen hr, by simp, ?_⟩
  intro i s hs
  have hi : i < n := by
    rw [← hlen]; exact (List.getElem?_eq_some_iff.mp hs).1
  simp [List.getElem?_map, List.getElem?_range hi, List.getD_eq_getElem?_getD, hs]

theorem abs_mainWidth_le (n : Nat) (hn : 2 ≤ n) : |mainWidth n| ≤ 2 ^ 40 := by
  have h := abs_rn_le (800 / (n : ℚ))
  have hn' : (2 : ℚ) ≤ (n : ℚ) := by exact_mod_cast hn
  have h2 : |800 / (n : ℚ)| ≤ 400 := by
    rw [abs_of_nonneg (by positivity), div_le_iff₀ (by linarith)]
    linarith
  have : (2 * 400 + 1 : ℚ) ≤ 2 ^ 40 := by norm_num
  unfold mainWidth
  linarith

theorem rn_maxHeight : rn (675 / 2) = 675 / 2 := by
  have := rn_exact 675 (-1) (by norm_num) (by norm_num)
  norm_num at this
  exact this

/-- The statements of `main` after a change of the count, in binary32, for a
count from 2 to `2^24 - 1`. -/
theorem regenerate_rounded_eq (n : Nat) (seq : List Int) (rnd : Nat → Int)
    (hn : 2 ≤ n) (hn2 : n < 16777216) (hlen : seq.length = n) (hr : InRange seq n) :
    regenerate (n : Int) seq rnd
      = some { rectCount := (n : Int), rectSize := mainWidth n,
               rectangles := (List.range n).map fun i =>
                 roundedRect n (mainWidth n) 800 (675 / 2) rnd i (seq.getD i 0) } := by
  have hn24 : |(n : Int)| < 2 ^ 24 := by rw [abs_of_nonneg (by omega)]; omega
  have hnq : (n : ℚ) ≠ 0 := by
    have : (2 : ℚ) ≤ (n : ℚ) := by exact_mod_cast hn
    intro h; linarith
  have hq : |(800 : ℚ) / (n : ℚ)| ≤ 2 ^ 100 := by
    have hn' : (2 : ℚ) ≤ (n : ℚ) := by exact_mod_cast hn
    rw [abs_of_nonneg (by positivity), div_le_iff₀ (by linarith)]
    have : (800 : ℚ) ≤ 2 ^ 100 * 2 := by norm_num
    nlinarith
  unfold regenerate screenWidth screenHeight
  rw [ofInt_eq_some (by norm_num : |(800 : Int)| < 2 ^ 24), ofInt_eq_some hn24,
    ofInt_eq_some (by norm_num : |(450 : Int)| < 2 ^ 24)]
  simp only [Option.some_bind, Int.cast_natCast, Int.cast_ofNat]
  have h450 : |(3 / 4 : ℚ) * 450| ≤ 2 ^ 100 := by
    rw [abs_of_nonneg (by norm_num)]; norm_num
  rw [div_eq_some hnq hq, mul_eq_some h450]
  simp only [Option.some_bind]
  have e : (3 / 4 : ℚ) * 450 = 675 / 2 := by norm_num
  rw [e, rn_maxHeight]
  have hg := generate_rounded_eq n (mainWidth n) 800 (675 / 2) seq rnd hn hn2 (abs_mainWidth_le n hn)
    (by norm_num) (by norm_num) (by norm_num) rn_maxHeight hlen hr
  unfold mainWidth at hg ⊢
  rw [hg]
  rfl

theorem mainWidth_bounds (n : Nat) (hn : 2 ≤ n) (hn2 : n < 16777216) :
    0 ≤ mainWidth n ∧ |(n : ℚ) * mainWidth n - 800| ≤ 801 / 16777216 := by
  have hN2 : (2 : ℚ) ≤ (n : ℚ) := by exact_mod_cast hn
  have hN24 : (n : ℚ) < 16777216 := by exact_mod_cast hn2
  have hN0 : (0 : ℚ) < (n : ℚ) := by linarith
  have ht0 : (0 : ℚ) ≤ 800 / (n : ℚ) := by positivity
  have hη := eta_le
  have hη0 := eta_pos
  have hw := abs_rn_sub_le_eta (800 / (n : ℚ))
  rw [abs_of_nonneg ht0] at hw
  refine ⟨rn_nonneg ht0, ?_⟩
  have e : (n : ℚ) * mainWidth n - 800 = (n : ℚ) * (rn (800 / (n : ℚ)) - 800 / (n : ℚ)) := by
    unfold mainWidth; field_simp; ring
  rw [e, abs_mul, abs_of_pos hN0]
  have h1 : (n : ℚ) * |rn (800 / (n : ℚ)) - 800 / (n : ℚ)|
      ≤ (n : ℚ) * (800 / (n : ℚ) / 16777216 + eta) := mul_le_mul_of_nonneg_left hw hN0.le
  have h2 : (n : ℚ) * (800 / (n : ℚ) / 16777216 + eta) = 800 / 16777216 + (n : ℚ) * eta := by
    field_simp; ring
  have h3 : (n : ℚ) * eta ≤ 16777216 * (1 / 10 ^ 45) := by
    have := mul_le_mul hN24.le hη hη0.le (by norm_num)
    linarith
  have h4 : (16777216 : ℚ) * (1 / 10 ^ 45) ≤ 1 / 16777216 := by norm_num
  linarith

theorem abs_startX_main_le (n : Nat) (hn : 2 ≤ n) (hn2 : n < 16777216) :
    |startXValue n (mainWidth n) 800| ≤ 803 / 16777216 := by
  obtain ⟨hw0, hP⟩ := mainWidth_bounds n hn hn2
  have hη := eta_le
  set P : ℚ := (n : ℚ) * mainWidth n with hPdef
  have hPabs : |P| ≤ 801 := by
    have := abs_le.mp hP
    rw [abs_le]; constructor <;> linarith
  have hPt := abs_rn_sub_le_eta P
  have hD : |800 - rn P| ≤ 1603 / 16777216 := by
    have h1 := abs_le.mp hP
    have h2 := abs_le.mp (le_trans hPt (by linarith : |P| / 16777216 + eta ≤ 802 / 16777216))
    rw [abs_le]; constructor <;> linarith
  have hDt := abs_rn_sub_le_eta (800 - rn P)
  have hDt' : |rn (800 - rn P)| ≤ 1604 / 16777216 := by
    have h1 := abs_le.mp hD
    have h2 := abs_le.mp (le_trans hDt
      (by linarith : |800 - rn P| / 16777216 + eta ≤ 1 / 16777216))
    rw [abs_le]; constructor <;> linarith
  have hS : |rn (800 - rn P) * (1 / 2)| ≤ 802 / 16777216 := by
    rw [abs_mul, abs_of_pos (by norm_num : (0 : ℚ) < 1 / 2)]
    linarith
  have hSt := abs_rn_sub_le_eta (rn (800 - rn P) * (1 / 2))
  unfold startXValue
  rw [← hPdef]
  have h1 := abs_le.mp hS
  have h2 := abs_le.mp (le_trans hSt
    (by linarith : |rn (800 - rn P) * (1 / 2)| / 16777216 + eta ≤ 1 / 16777216))
  rw [abs_le]; constructor <;> linarith

theorem abs_mainX_sub_le (n i : Nat) (hn : 2 ≤ n) (hn2 : n < 16777216) (hi : i ≤ n) :
    |mainX n i - (startXValue n (mainWidth n) 800 + (i : ℚ) * mainWidth n)|
      ≤ 1604 / 16777216 := by
  obtain ⟨hw0, hP⟩ := mainWidth_bounds n hn hn2
  have hsx := abs_startX_main_le n hn hn2
  have hη := eta_le
  have hi0 : (0 : ℚ) ≤ (i : ℚ) := Nat.cast_nonneg i
  have hin : (i : ℚ) ≤ (n : ℚ) := by exact_mod_cast hi
  have hM0 : 0 ≤ (i : ℚ) * mainWidth n := mul_nonneg hi0 hw0
  have hM1 : (i : ℚ) * mainWidth n ≤ 801 := by
    have h1 := mul_le_mul_of_nonneg_right hin hw0
    have h2 := abs_le.mp hP
    linarith
  set M : ℚ := (i : ℚ) * mainWidth n with hMdef
  set sx : ℚ := startXValue n (mainWidth n) 800 with hsxdef
  have hMt := abs_rn_sub_le_eta M
  rw [abs_of_nonneg hM0] at hMt
  have hMt' := abs_le.mp hMt
  have hsx' := abs_le.mp hsx
  have hsum : |sx + rn M| ≤ 802 := by
    rw [abs_le]; constructor <;> linarith
  have hxt := abs_rn_sub_le_eta (sx + rn M)
  have hxt' := abs_le.mp (le_trans hxt
    (by linarith : |sx + rn M| / 16777216 + eta ≤ 802 / 16777216 + 1 / 10 ^ 45))
  unfold mainX
  rw [← hMdef, ← hsxdef]
  have h45 : (1 : ℚ) / 10 ^ 45 ≤ 1 / (2 * 16777216) := by norm_num
  rw [abs_le]; constructor <;> linarith

theorem mainX_zero (n : Nat) : mainX n 0 = startXValue n (mainWidth n) 800 := by
  unfold mainX
  simp only [Nat.cast_zero, zero_mul, rn_zero, add_zero]
  unfold startXValue
  exact rn_idem _

/-- In binary32 the row `main` lays out is contiguous and centred up to `2^-12`. -/
theorem main_layout_bounds (n : Nat) (hn : 2 ≤ n) (hn2 : n < 16777216) :
    |mainX n 0| ≤ 1 / 16384 ∧
    (∀ i : Nat, i + 1 < n →
      |mainX n (i + 1) - (mainX n i + mainWidth n)| ≤ 1 / 4096) ∧
    |mainX n (n - 1) + mainWidth n - 800| ≤ 1 / 4096 ∧
    |mainX n 0 - (800 - (mainX n (n - 1) + mainWidth n))| ≤ 1 / 4096 := by
  obtain ⟨hw0, hP⟩ := mainWidth_bounds n hn hn2
  have hsx := abs_startX_main_le n hn hn2
  have hsx' := abs_le.mp hsx
  have hP' := abs_le.mp hP
  have hlast := abs_le.mp (abs_mainX_sub_le n (n - 1) hn hn2 (by omega))
  have hcast : ((n - 1 : Nat) : ℚ) = (n : ℚ) - 1 := by
    rw [Nat.cast_sub (by omega)]; simp
  rw [hcast] at hlast
  have h0 : mainX n 0 = startXValue n (mainWidth n) 800 := mainX_zero n
  refine ⟨?_, ?_, ?_, ?_⟩
  · rw [h0, abs_le]; constructor <;> linarith
  · intro i hi
    have ha := abs_le.mp (abs_mainX_sub_le n i hn hn2 (by omega))
    have hb := abs_le.mp (abs_mainX_sub_le n (i + 1) hn hn2 (by omega))
    push_cast at hb
    rw [abs_le]; constructor <;> linarith
  · rw [abs_le]; constructor <;> linarith
  · rw [h0, abs_le]; constructor <;> linarith

theorem mainWidth_20 : mainWidth 20 = 40 := by
  unfold mainWidth
  have e : (800 : ℚ) / ((20 : Nat) : ℚ) = ((40 : Int) : ℚ) := by norm_num
  rw [e, rn_intCast 40 (by norm_num)]
  norm_num

theorem startXValue_20 : startXValue 20 40 800 = 0 := by
  unfold startXValue
  have e : ((20 : Nat) : ℚ) * 40 = ((800 : Int) : ℚ) := by norm_num
  rw [e, rn_intCast 800 (by norm_num)]
  norm_num [rn_zero]

theorem mainX_20 (i : Nat) (hi : i < 20) : mainX 20 i = 40 * (i : ℚ) := by
  unfold mainX
  rw [mainWidth_20, startXValue_20]
  have e : (i : ℚ) * 40 = (((i : Int) * 40 : Int) : ℚ) := by push_cast; ring
  have h24 : |(i : Int) * 40| < 2 ^ 24 := by
    rw [abs_of_nonneg (by omega)]; omega
  rw [e, rn_intCast _ h24, zero_add, rn_intCast _ h24]
  push_cast; ring

theorem mainWidth_45 : mainWidth 45 = 2330169 / 131072 := by
  unfold mainWidth
  have e : (800 : ℚ) / ((45 : Nat) : ℚ) = 160 / 9 := by norm_num
  have q : rn (160 / 9) = ((9320676 : Int) : ℚ) * (2 : ℚ) ^ ((4 : Int) - 23) := by
    apply rn_eq_of_pos <;> norm_num
  rw [e, q]
  norm_num

theorem startXValue_45 : startXValue 45 (2330169 / 131072) 800 = -1 / 32768 := by
  unfold startXValue
  have e : ((45 : Nat) : ℚ) * (2330169 / 131072) = 104857605 / 131072 := by norm_num
  have p : rn (104857605 / 131072) = ((13107201 : Int) : ℚ) * (2 : ℚ) ^ ((9 : Int) - 23) := by
    apply rn_eq_of_pos <;> norm_num
  have d : (800 : ℚ) - ((13107201 : Int) : ℚ) * (2 : ℚ) ^ ((9 : Int) - 23)
      = ((-1 : Int) : ℚ) * (2 : ℚ) ^ (-14 : Int) := by norm_num
  have s : ((-1 : Int) : ℚ) * (2 : ℚ) ^ (-14 : Int) * (1 / 2)
      = ((-1 : Int) : ℚ) * (2 : ℚ) ^ (-15 : Int) := by norm_num
  rw [e, p, d, rn_exact (-1) (-14) (by norm_num) (by norm_num), s,
    rn_exact (-1) (-15) (by norm_num) (by norm_num)]
  norm_num

theorem mainX_45_zero : mainX 45 0 = -1 / 32768 := by
  rw [mainX_zero, mainWidth_45, startXValue_45]

theorem bind_fun_none {α β : Type} (o : Option α) :
    (o.bind fun _ => (none : Option β)) = none := by
  cases o <;> rfl

theorem fl_zero : fl 0 = some 0 := by
  unfold fl
  rw [rn_zero]
  norm_num

/-- With a count of one the input range of the remap is empty: the quotient
`0/0` is not a number and its conversion to `int` is undefined. -/
theorem rectHeight_count_one (s : Int) (H : ℚ) : rectHeight s 1 H = none := by
  have h1 : sub (1 : ℚ) 1 = some 0 := by
    unfold sub; rw [sub_self]; exact fl_zero
  have h2 : sub (0 : ℚ) 0 = some 0 := by
    unfold sub; rw [sub_self]; exact fl_zero
  have h3 : ∀ a : ℚ, div a 0 = none := by intro a; unfold div; simp
  unfold rectHeight Remap
  simp only [h1, h2, h3, Option.some_bind, Option.none_bind, bind_fun_none]

theorem generateBody_count_one (w H sx : ℚ) (size : Nat) (s : Int) (rnd : Nat → Int) :
    generateBody 1 w H sx size [s] rnd 0 = none := by
  unfold generateBody
  simp only [List.getElem?_cons_zero, rectHeight_count_one, Option.none_bind, ite_self]

theorem generate_count_one (w W H : ℚ) (s : Int) (rnd : Nat → Int) :
    GenerateRandomColorRectSequence 1 w W H [s] rnd = none := by
  have htake : ((List.range ⌈(1 : ℚ)⌉₊).takeWhile
      fun (i : Nat) => decide (rn (i : ℚ) < (1 : ℚ))) = [0] := by
    have : ⌈(1 : ℚ)⌉₊ = 1 := by simp
    rw [this]
    simp [List.range_succ, rn_zero]
  have hm : ∀ (sx : ℚ) (size : Nat),
      [0].mapM (generateBody 1 w H sx size [s] rnd) = none := by
    intro sx size
    rw [List.mapM_cons, generateBody_count_one]
    rfl
  unfold GenerateRandomColorRectSequence
  simp only [htake, hm, bind_fun_none]

/-- At a count of one the regeneration of `main` is undefined. -/
theorem regenerate_count_one (s : Int) (rnd : Nat → Int) : regenerate 1 [s] rnd = none := by
  have h1 : ofInt 1 = some 1 := by
    have := ofInt_eq_some (k := 1) (by norm_num)
    simpa using this
  unfold regenerate
  simp only [h1, Option.some_bind, generate_count_one, Option.map_none', bind_fun_none]

theorem abs_startX_sub_le (n : Nat) (w W : ℚ) :
    |startXValue n w W - (W - (n : ℚ) * w) / 2|
      ≤ 4 * (|W| + (n : ℚ) * |w|) / 16777216 + 4 * eta ∧
    |startXValue n w W| ≤ (|W| + (n : ℚ) * |w|) + 4 * eta := by
  have hη0 := eta_pos
  have hn0 : (0 : ℚ) ≤ (n : ℚ) := Nat.cast_nonneg n
  have hB0 : 0 ≤ |W| + (n : ℚ) * |w| := add_nonneg (abs_nonneg W) (mul_nonneg hn0 (abs_nonneg w))
  set B : ℚ := |W| + (n : ℚ) * |w| with hB
  set P : ℚ := (n : ℚ) * w with hP
  have hPabs : |P| = (n : ℚ) * |w| := by rw [hP, abs_mul, abs_of_nonneg hn0]
  have hW := abs_le.mp (le_refl |W|)
  have hPb := abs_le.mp (le_of_eq hPabs)
  have a1 := abs_le.mp (abs_rn_sub_le_eta P)
  rw [hPabs] at a1
  set Pt : ℚ := rn P with hPt
  have hD : |W - Pt| ≤ 2 * B + eta := by
    rw [abs_le]; constructor <;> linarith
  have a2 := abs_le.mp (abs_rn_sub_le_eta (W - Pt))
  set Dt : ℚ := rn (W - Pt) with hDt
  have hS : |Dt * (1 / 2)| ≤ 2 * B + 2 * eta := by
    have hD' := abs_le.mp hD
    rw [abs_le]; constructor <;> linarith
  have a3 := abs_le.mp (abs_rn_sub_le_eta (Dt * (1 / 2)))
  have hsx : startXValue n w W = rn (Dt * (1 / 2)) := rfl
  rw [hsx]
  have hD' := abs_le.mp hD
  have hS' := abs_le.mp hS
  constructor
  · rw [abs_le]; constructor <;> linarith
  · rw [abs_le]; constructor <;> linarith

theorem abs_roundedX_sub_le (n : Nat) (w W : ℚ) (i : Nat) (hi : i ≤ n) :
    |roundedX n w W i - (startXValue n w W + (i : ℚ) * w)|
      ≤ 4 * (|W| + (n : ℚ) * |w|) / 16777216 + 3 * eta := by
  have hη0 := eta_pos
  have hn0 : (0 : ℚ) ≤ (n : ℚ) := Nat.cast_nonneg n
  have hi0 : (0 : ℚ) ≤ (i : ℚ) := Nat.cast_nonneg i
  have hin : (i : ℚ) ≤ (n : ℚ) := by exact_mod_cast hi
  obtain ⟨_, hsx⟩ := abs_startX_sub_le n w W
  have hWn := abs_nonneg W
  have hiw : (i : ℚ) * |w| ≤ (n : ℚ) * |w| := mul_le_mul_of_nonneg_right hin (abs_nonneg w)
  have hiw0 : 0 ≤ (i : ℚ) * |w| := mul_nonneg hi0 (abs_nonneg w)
  set B : ℚ := |W| + (n : ℚ) * |w| with hB
  set M : ℚ := (i : ℚ) * w with hM
  have hMabs : |M| = (i : ℚ) * |w| := by rw [hM, abs_mul, abs_of_nonneg hi0]
  have hMb := abs_le.mp (le_of_eq hMabs)
  have a1 := abs_le.mp (abs_rn_sub_le_eta M)
  rw [hMabs] at a1
  set sx : ℚ := startXValue n w W with hsxdef
  have hsx' := abs_le.mp hsx
  have hsum : |sx + rn M| ≤ 3 * B + 5 * eta := by
    rw [abs_le]; constructor <;> linarith
  have a2 := abs_le.mp (abs_rn_sub_le_eta (sx + rn M))
  have hsum' := abs_le.mp hsum
  have hx : roundedX n w W i = rn (sx + rn M) := rfl
  rw [hx, abs_le]
  constructor <;> linarith

/-- For every call the rounded row is contiguous and centred up to a relative
`2^-20` of `|screenWidth| + rectCount*|rectWidth|`. -/
theorem layout_bounds (n : Nat) (w W : ℚ) (hn : 1 ≤ n) :
    (∀ i : Nat, i + 1 < n →
      |roundedX n w W (i + 1) - (roundedX n w W i + w)|
        ≤ (|W| + (n : ℚ) * |w|) / 1048576 + 1 / 10 ^ 40) ∧
    |roundedX n w W 0 - (W - (roundedX n w W (n - 1) + w))|
      ≤ (|W| + (n : ℚ) * |w|) / 1048576 + 1 / 10 ^ 40 := by
  have hη := eta_le
  have hη0 := eta_pos
  have hn0 : (0 : ℚ) ≤ (n : ℚ) := Nat.cast_nonneg n
  have hB0 : 0 ≤ |W| + (n : ℚ) * |w| := add_nonneg (abs_nonneg W) (mul_nonneg hn0 (abs_nonneg w))
  have h40 : 14 * ((1 : ℚ) / 10 ^ 45) ≤ 1 / 10 ^ 40 := by norm_num
  constructor
  · intro i hi
    have ha := abs_le.mp (abs_roundedX_sub_le n w W i (by omega))
    have hb := abs_le.mp (abs_roundedX_sub_le n w W (i + 1) (by omega))
    push_cast at hb
    rw [abs_le]; constructor <;> linarith
  · have ha := abs_le.mp (abs_roundedX_sub_le n w W 0 (by omega))
    have hb := abs_le.mp (abs_roundedX_sub_le n w W (n - 1) (by omega))
    have hc := abs_le.mp (abs_startX_sub_le n w W).1
    have hcast : ((n - 1 : Nat) : ℚ) = (n : ℚ) - 1 := by
      rw [Nat.cast_sub hn]; simp
    rw [hcast] at hb
    simp only [Nat.cast_zero, zero_mul, add_zero] at ha
    rw [abs_le]; constructor <;> linarith

end Binary32

/-! ## The claims -/

/-- C1: `ShuffleColorRectSequence` is the sequential in-place swap pass.  For
every array and every index sequence of the same length with entries in
`[0, rectCount - 1]`, the result is the left-to-right fold of the exchange of the
(color, height, y) payload of item `i` with that of item `seq[i]`; step `i`
leaves in item `i` the payload item `seq[i]` held before the step and in item
`seq[i]` the payload item `i` held before it.  For `seq = [2,0,3,1]` on
`[A,B,C,D]` the four steps give item 0 the payload of `C`, item 1 the payload
item 0 then holds (that of `C`), item 2 the payload of `D`, item 3 the payload
item 1 then holds (that of `C`). -/
theorem shuffle_is_sequential_swap_pass :
    (∀ (rectangles : List ColorRect) (seq : List Int),
      seq.length = rectangles.length → InRange seq rectangles.length →
      ShuffleColorRectSequence rectangles rectangles.length seq
          = some (swapPass rectangles seq rectangles.length)
      ∧ ∀ i, i < rectangles.length →
          ∃ before after s a b,
            shuffleLoop seq rectangles i = some before ∧
            shuffleLoop seq rectangles (i + 1) = some after ∧
            seq[i]? = some s ∧ 0 ≤ s ∧ before[i]? = some a ∧ before[s.toNat]? = some b ∧
            after = exchangePayload before i s.toNat ∧
            (after[i]?).map payload = some (payload b) ∧
            (after[s.toNat]?).map payload = some (payload a))
    ∧ (∀ A B C D : ColorRect,
        shuffleLoop [2, 0, 3, 1] [A, B, C, D] 1
          = some [withPayload A (payload C), B, withPayload C (payload A), D]
        ∧ shuffleLoop [2, 0, 3, 1] [A, B, C, D] 2
          = some [withPayload A (payload B), withPayload B (payload C),
                  withPayload C (payload A), D]
        ∧ shuffleLoop [2, 0, 3, 1] [A, B, C, D] 3
          = some [withPayload A (payload B), withPayload B (payload C),
                  withPayload C (payload D), withPayload D (payload A)]
        ∧ ShuffleColorRectSequence [A, B, C, D] 4 [2, 0, 3, 1]
          = some [withPayload A (payload B), withPayload B (payload A),
                  withPayload C (payload D), withPayload D (payload C)]) := by
  refine ⟨?_, ?_⟩
  · intro rectangles seq hlen hr
    refine ⟨shuffle_eq_swapPass rectangles seq hlen hr, ?_⟩
    intro i hi
    have hk : i < seq.length := by omega
    have hs : seq[i]? = some seq[i] := List.getElem?_eq_getElem hk
    obtain ⟨h0, h1⟩ := hr.toNat_lt hs
    have hli : i < (swapPass rectangles seq i).length := by rw [length_swapPass]; exact hi
    have hlj : (seq[i]).toNat < (swapPass rectangles seq i).length := by
      rw [length_swapPass]; exact h1
    have ha := List.getElem?_eq_getElem hli
    have hb := List.getElem?_eq_getElem hlj
    refine ⟨swapPass rectangles seq i, swapPass rectangles seq (i + 1), seq[i], _, _,
      shuffleLoop_eq seq rectangles hlen hr i (by omega),
      shuffleLoop_eq seq rectangles hlen hr (i + 1) (by omega), hs, h0, ha, hb, ?_, ?_, ?_⟩
    · rw [swapPass_succ]; simp [List.getD_eq_getElem?_getD, hs]
    · rw [swapPass_succ]
      simp only [List.getD_eq_getElem?_getD, hs, Option.getD_some]
      rw [getElem?_exchangePayload_left _ _ _ _ _ ha hb]; rfl
    · rw [swapPass_succ]
      simp only [List.getD_eq_getElem?_getD, hs, Option.getD_some]
      rw [getElem?_exchangePayload_right _ _ _ _ _ ha hb]; rfl
  · intro A B C D
    have h4r : InRange [2, 0, 3, 1] 4 := by decide
    have hr : InRange [2, 0, 3, 1] [A, B, C, D].length := h4r
    obtain ⟨h1, h2, h3, h4⟩ := swapPass_example A B C D
    have hl := shuffleLoop_eq [2, 0, 3, 1] [A, B, C, D] rfl hr
    have hlen : [A, B, C, D].length = 4 := rfl
    refine ⟨?_, ?_, ?_, ?_⟩
    · rw [hl 1 (by rw [hlen]; omega), h1]
    · rw [hl 2 (by rw [hlen]; omega), h2]
    · rw [hl 3 (by rw [hlen]; omega), h3]
    · rw [← h4]; exact hl 4 (by rw [hlen])

theorem shuffle_is_sequential_swap_pass_witness :
    ShuffleColorRectSequence exampleItems exampleItems.length [2, 0, 3, 1]
      = some (swapPass exampleItems [2, 0, 3, 1] exampleItems.length) :=
  (shuffle_is_sequential_swap_pass.1 exampleItems [2, 0, 3, 1] (by decide) (by decide)).1

/-- C2: the shuffle swaps only color, height and y.  For every array and every
in-range index sequence the shuffle returns an array of the same length in which
every item has the `r.x` and the `r.width` it had before. -/
theorem shuffle_keeps_x_and_width (rectangles : List ColorRect) (seq : List Int)
    (hlen : seq.length = rectangles.length) (hr : InRange seq rectangles.length) :
    ∃ out, ShuffleColorRectSequence rectangles rectangles.length seq = some out ∧
      out.length = rectangles.length ∧
      ∀ (i : Nat) (e : ColorRect), rectangles[i]? = some e →
        ∃ d : ColorRect, out[i]? = some d ∧ d.r.x = e.r.x ∧ d.r.width = e.r.width := by
  refine ⟨_, shuffle_eq_swapPass rectangles seq hlen hr, length_swapPass _ _ _, ?_⟩
  intro i e he
  have hmap := congrArg (fun l => l[i]?) (map_frame_swapPass rectangles seq rectangles.length)
  simp only [List.getElem?_map, he, Option.map_some'] at hmap
  obtain ⟨d, hd, hfd⟩ := Option.map_eq_some'.mp hmap
  refine ⟨d, hd, ?_, ?_⟩
  · exact congrArg Prod.fst hfd
  · exact congrArg Prod.snd hfd

theorem shuffle_keeps_x_and_width_witness :
    ∃ out, ShuffleColorRectSequence exampleItems exampleItems.length [2, 0, 3, 1] = some out ∧
      out.length = exampleItems.length ∧
      ∀ (i : Nat) (e : ColorRect), exampleItems[i]? = some e →
        ∃ d : ColorRect, out[i]? = some d ∧ d.r.x = e.r.x ∧ d.r.width = e.r.width :=
  shuffle_keeps_x_and_width exampleItems [2, 0, 3, 1] (by decide) (by decide)

/-- C3: the shuffle only redistributes the existing payloads.  For every array
and every index sequence with entries in `[0, rectCount - 1]`, the multiset of
(color, height, y) triples after the shuffle is the multiset before it. -/
theorem shuffle_preserves_payload_multiset (rectangles : List ColorRect) (seq : List Int)
    (hlen : seq.length = rectangles.length) (hr : InRange seq rectangles.length) :
    ∃ out, ShuffleColorRectSequence rectangles rectangles.length seq = some out ∧
      Multiset.ofList (out.map payload) = Multiset.ofList (rectangles.map payload) :=
  ⟨_, shuffle_eq_swapPass rectangles seq hlen hr,
    Multiset.coe_eq_coe.mpr (perm_payload_swapPass rectangles seq rectangles.length)⟩

theorem shuffle_preserves_payload_multiset_witness :
    ∃ out, ShuffleColorRectSequence exampleItems exampleItems.length [2, 0, 3, 1] = some out ∧
      Multiset.ofList (out.map payload) = Multiset.ofList (exampleItems.map payload) :=
  shuffle_preserves_payload_multiset exampleItems [2, 0, 3, 1] (by decide) (by decide)

/-- C4, as stated, fails: seventeen DOWN presses after the start take the count
from 20 to 3, which is under 4; the seventeenth is pressed at the count 4 and
is accepted by the test `rectCount >= 4`. -/
theorem count_drops_below_four :
    ∃ st : MainState,
      mainRun (idSeq 20) rndZero (downFrames 17) = some st ∧
      st.rectCount = 3 ∧ ¬ 4 ≤ st.rectCount := by
  have h : (mainRun (idSeq 20) rndZero (downFrames 17)).map (fun st => st.rectCount) = some 3 := by
    decide
  obtain ⟨st, hst, hc⟩ := Option.map_eq_some'.mp h
  refine ⟨st, hst, hc, ?_⟩
  rw [hc]; decide

/-- C4, amended: the rectangle count never drops under 3.  Starting from the
count 20, after every finite sequence of passes in which only UP and DOWN are
pressed, `rectCount >= 3`; a DOWN press at a count under 4 is rejected and
leaves the state unchanged, and a DOWN press at a count of 4 or more takes one
off the count. -/
theorem count_floor_is_three :
    (∀ (seq : List Int) (rnd : Nat → Int) (frames : List FrameInput) (st : MainState),
      (∀ f ∈ frames, f.keySpace = false) → mainRun seq rnd frames = some st →
      3 ≤ st.rectCount)
    ∧ (∀ (f : FrameInput) (st : MainState),
        f.keySpace = false → f.keyUp = false → f.keyDown = true → st.rectCount < 4 →
        mainUpdate f st = some st)
    ∧ (∀ (f : FrameInput) (st : MainState),
        f.keySpace = false → f.keyUp = false → f.keyDown = true → 4 ≤ st.rectCount →
        f.downSeq.length = (st.rectCount - 1).toNat →
        ∃ st1, mainUpdate f st = some st1 ∧ st1.rectCount = st.rectCount - 1) := by
  refine ⟨?_, ?_, ?_⟩
  · intro seq rnd frames st _ h
    exact (mainRun_inv h).1
  · intro f st hs hu hd hlt
    have : ¬ st.rectCount ≥ 4 := by omega
    simp [mainUpdate, onSpace, onUp, onDown, hs, hu, hd, this]
  · intro f st hs hu hd hge hlen
    obtain ⟨st1, h1, hc⟩ := regenerate_isSome (st.rectCount - 1) f.downSeq f.downRnd (by omega)
    refine ⟨st1, ?_, hc⟩
    simp [mainUpdate, onSpace, onUp, onDown, hs, hu, hd, hge, h1]

theorem count_floor_is_three_witness :
    ∃ st : MainState, mainRun (idSeq 20) rndZero [downKey (idSeq 19), upKey (idSeq 20)] = some st ∧
      3 ≤ st.rectCount :=
  ⟨(mainRun (idSeq 20) rndZero [downKey (idSeq 19), upKey (idSeq 20)]).get (by decide),
    (Option.some_get _).symm,
    count_floor_is_three.1 (idSeq 20) rndZero [downKey (idSeq 19), upKey (idSeq 20)] _
      (by decide) (Option.some_get _).symm⟩

/-- C5, as stated, fails: at the count 20 with `maxHeight = 337.5` and the value
`v = 19` at index 19, the rectangle gets the height 337, not
`19 * 337.5 / 19 = 337.5`: the remapped value goes through `(int)`. -/
theorem height_at_top_is_not_the_remap :
    ∃ (out : List ColorRect) (d : ColorRect),
      Binary32.GenerateRandomColorRectSequence ((20 : Nat) : ℚ) 40 800 (675 / 2) (idSeq 20)
        rndZero = some out ∧
      (idSeq 20)[19]? = some 19 ∧ out[19]? = some d ∧ d.r.height = 337 ∧
      d.r.height ≠ (19 : ℚ) * (675 / 2) / (((20 : Nat) : ℚ) - 1) := by
  obtain ⟨out, hout, _, hget⟩ :=
    Binary32.generate_rounded_getElem? 20 40 800 (675 / 2) (idSeq 20) rndZero (by norm_num) (by norm_num)
      (abs_le_of_nonneg_le (by norm_num) (by norm_num))
      (abs_le_of_nonneg_le (by norm_num) (by norm_num))
      (by norm_num) (by norm_num) Binary32.rn_maxHeight (length_idSeq 20) (by decide)
  have h19 : (idSeq 20)[19]? = some 19 := by decide
  have hh : (Binary32.roundedRect 20 40 800 (675 / 2) rndZero 19 19).r.height = 337 := by
    simp only [Binary32.roundedRect, Binary32.remapValue_19_20]
    norm_num
  refine ⟨out, _, hout, h19, hget 19 19 h19, hh, ?_⟩
  rw [hh]; norm_num

/-- C5, amended: the height `GenerateRandomColorRectSequence` assigns is the
binary32 remap cut to an `int`.  For every count from 2 to `2^24 - 1`, every
binary32 `maxHeight` from 0 to `2^23` and every value `v = seq[i]` of an
in-range sequence, the generation returns and rectangle `i` gets the height
`h = (int)Remap((float)v, 0, rectCount - 1, 0, maxHeight)` and
`y = maxHeight - h`, where `h` is an integer with
`e*(1 - 2^-22) - 1 < h <= e*(1 + 2^-22)` for the exact `e = v*maxHeight/(rectCount - 1)`.
For the count 20 and `maxHeight = 337.5`, `v = 19` gives 337 and `v = 0` gives
0; for the count 28, `v = 10` gives 124 although `e = 125`. -/
theorem height_is_truncated_remap :
    (∀ (n : Nat) (rectWidth screenWidth maxHeight : ℚ) (seq : List Int) (rnd : Nat → Int)
        (i : Nat) (v : Int),
      2 ≤ n → n < 16777216 → |rectWidth| ≤ 2 ^ 40 → |screenWidth| ≤ 2 ^ 40 →
      0 ≤ maxHeight → maxHeight ≤ 8388608 → Binary32.rn maxHeight = maxHeight →
      seq.length = n → InRange seq n → seq[i]? = some v →
      ∃ (out : List ColorRect) (d : ColorRect) (h : Int),
        Binary32.GenerateRandomColorRectSequence (n : ℚ) rectWidth screenWidth maxHeight seq rnd
          = some out ∧ out[i]? = some d ∧
        Binary32.rectHeight v (n : ℚ) maxHeight = some h ∧
        d.r.height = (h : ℚ) ∧ d.r.y = Binary32.rn (maxHeight - (h : ℚ)) ∧
        0 ≤ h ∧
        (h : ℚ) ≤ (v : ℚ) * maxHeight / ((n : ℚ) - 1) * (1 + 1 / 4194304) ∧
        (v : ℚ) * maxHeight / ((n : ℚ) - 1) * (1 - 1 / 4194304) - 1 < (h : ℚ))
    ∧ (∀ (rectWidth screenWidth : ℚ) (seq : List Int) (rnd : Nat → Int) (i : Nat),
        |rectWidth| ≤ 2 ^ 40 → |screenWidth| ≤ 2 ^ 40 → seq.length = 20 → InRange seq 20 →
        ∃ out : List ColorRect,
          Binary32.GenerateRandomColorRectSequence ((20 : Nat) : ℚ) rectWidth screenWidth
            (675 / 2) seq rnd = some out ∧
          (seq[i]? = some 19 → ∃ d : ColorRect, out[i]? = some d ∧ d.r.height = 337) ∧
          (seq[i]? = some 0 → ∃ d : ColorRect, out[i]? = some d ∧ d.r.height = 0))
    ∧ (∀ (rectWidth screenWidth : ℚ) (seq : List Int) (rnd : Nat → Int) (i : Nat),
        |rectWidth| ≤ 2 ^ 40 → |screenWidth| ≤ 2 ^ 40 → seq.length = 28 → InRange seq 28 →
        ∃ out : List ColorRect,
          Binary32.GenerateRandomColorRectSequence ((28 : Nat) : ℚ) rectWidth screenWidth
            (675 / 2) seq rnd = some out ∧
          (seq[i]? = some 10 → ∃ d : ColorRect, out[i]? = some d ∧ d.r.height = 124 ∧
            (10 : ℚ) * (675 / 2) / (((28 : Nat) : ℚ) - 1) = 125)) := by
  refine ⟨?_, ?_, ?_⟩
  · intro n w W H seq rnd i v hn hn2 hw hW hH hH2 hHf hlen hr hv
    obtain ⟨out, hout, _, hget⟩ :=
      Binary32.generate_rounded_getElem? n w W H seq rnd hn hn2 hw hW hH hH2 hHf hlen hr
    obtain ⟨h0, h1⟩ := hr.toNat_lt hv
    have h1' : v ≤ (n : Int) - 1 := by omega
    obtain ⟨h, hh, hh0, hup, hlo⟩ := Binary32.rectHeight_bounds v n H hn hn2 h0 h1' hH hH2 hHf
    have hfl : h = ⌊Binary32.remapValue v n H⌋ := by
      rw [Binary32.rectHeight_eq v n H hn hn2 h0 h1' hH hH2 hHf] at hh
      exact (Option.some.inj hh).symm
    refine ⟨out, _, h, hout, hget i v hv, hh, ?_, ?_, hh0, hup, hlo⟩
    · rw [hfl]; rfl
    · rw [hfl]; rfl
  · intro w W seq rnd i hw hW hlen hr
    obtain ⟨out, hout, _, hget⟩ :=
      Binary32.generate_rounded_getElem? 20 w W (675 / 2) seq rnd (by norm_num) (by norm_num) hw hW
        (by norm_num) (by norm_num) Binary32.rn_maxHeight hlen hr
    refine ⟨out, hout, ?_, ?_⟩
    · intro hv
      refine ⟨_, hget i 19 hv, ?_⟩
      simp only [Binary32.roundedRect, Binary32.remapValue_19_20]
      norm_num
    · intro hv
      refine ⟨_, hget i 0 hv, ?_⟩
      simp only [Binary32.roundedRect, Binary32.remapValue_zero]
      norm_num
  · intro w W seq rnd i hw hW hlen hr
    obtain ⟨out, hout, _, hget⟩ :=
      Binary32.generate_rounded_getElem? 28 w W (675 / 2) seq rnd (by norm_num) (by norm_num) hw hW
        (by norm_num) (by norm_num) Binary32.rn_maxHeight hlen hr
    refine ⟨out, hout, ?_⟩
    intro hv
    refine ⟨_, hget i 10 hv, ?_, by norm_num⟩
    simp only [Binary32.roundedRect, Binary32.remapValue_10_28]
    norm_num

theorem height_is_truncated_remap_witness :
    ∃ (out : List ColorRect) (d : ColorRect) (h : Int),
      Binary32.GenerateRandomColorRectSequence ((28 : Nat) : ℚ) 40 800 (675 / 2) (idSeq 28)
        rndZero = some out ∧ out[10]? = some d ∧
      Binary32.rectHeight 10 ((28 : Nat) : ℚ) (675 / 2) = some h ∧
      d.r.height = (h : ℚ) ∧ d.r.y = Binary32.rn (675 / 2 - (h : ℚ)) ∧
      0 ≤ h ∧
      (h : ℚ) ≤ ((10 : Int) : ℚ) * (675 / 2) / (((28 : Nat) : ℚ) - 1) * (1 + 1 / 4194304) ∧
      ((10 : Int) : ℚ) * (675 / 2) / (((28 : Nat) : ℚ) - 1) * (1 - 1 / 4194304) - 1 < (h : ℚ) :=
  height_is_truncated_remap.1 28 40 800 (675 / 2) (idSeq 28) rndZero 10 10
    (by decide) (by decide) (abs_le_of_nonneg_le (by norm_num) (by norm_num))
    (abs_le_of_nonneg_le (by norm_num) (by norm_num)) (by norm_num) (by norm_num)
    Binary32.rn_maxHeight (by decide) (by decide) (by decide)

/-- C7: a shuffle that maps every index to itself is a no-op.  For every array
and every index sequence of the same length with `seq[i] = i` for all `i`, the
shuffle returns the array unchanged in every field, each step swapping an
element with itself through two aliases; in particular for a one-element array
and its only sequence `[0]`. -/
theorem shuffle_identity_is_noop :
    (∀ (rectangles : List ColorRect) (seq : List Int),
      seq.length = rectangles.length →
      (∀ i (h : i < seq.length), seq[i] = (i : Int)) →
      ShuffleColorRectSequence rectangles rectangles.length seq = some rectangles)
    ∧ (∀ e : ColorRect, ShuffleColorRectSequence [e] 1 [0] = some [e]) := by
  have main : ∀ (rectangles : List ColorRect) (seq : List Int),
      seq.length = rectangles.length →
      (∀ i (h : i < seq.length), seq[i] = (i : Int)) →
      ShuffleColorRectSequence rectangles rectangles.length seq = some rectangles := by
    intro rectangles seq hlen hid
    have hr : InRange seq rectangles.length := by
      intro s hs
      obtain ⟨i, hi, rfl⟩ := List.getElem_of_mem hs
      rw [hid i hi]
      omega
    rw [shuffle_eq_swapPass rectangles seq hlen hr,
      swapPass_identity rectangles seq hid _ (by omega)]
  refine ⟨main, ?_⟩
  intro e
  exact main [e] [0] rfl (by intro i h; match i, h with | 0, _ => rfl)

theorem shuffle_identity_is_noop_witness :
    ShuffleColorRectSequence exampleItems exampleItems.length [0, 1, 2, 3] = some exampleItems :=
  shuffle_identity_is_noop.1 exampleItems [0, 1, 2, 3] (by decide) (by decide)

/-- C8, as stated, fails: at the count 45 (25 UP presses) `main` passes the
width `(float)800/45 = 2330169/131072`, and the first rectangle starts at
`x_0 = -2^-15`, not at 0; and at a count of one the generation is undefined
(the remap divides zero by zero and the result is converted to `int`). -/
theorem row_off_centre_at_45 :
    (∃ (st : MainState) (d : ColorRect),
      Binary32.regenerate 45 (idSeq 45) rndZero = some st ∧
      st.rectSize = 2330169 / 131072 ∧
      st.rectangles[0]? = some d ∧ d.r.x = -1 / 32768 ∧ d.r.x ≠ 0)
    ∧ Binary32.regenerate 1 (idSeq 1) rndZero = none := by
  refine ⟨?_, Binary32.regenerate_count_one _ rndZero⟩
  have h := Binary32.regenerate_rounded_eq 45 (idSeq 45) rndZero (by norm_num) (by norm_num)
    (length_idSeq 45) (by decide)
  rw [show ((45 : Nat) : Int) = 45 from rfl] at h
  refine ⟨_, _, h, ?_, rfl, ?_, ?_⟩
  · show Binary32.mainWidth 45 = 2330169 / 131072
    exact Binary32.mainWidth_45
  · show Binary32.mainX 45 0 = -1 / 32768
    exact Binary32.mainX_45_zero
  · show Binary32.mainX 45 0 ≠ 0
    rw [Binary32.mainX_45_zero]; norm_num

/-- C8, amended: in binary32 the row is contiguous and centred up to rounding.
For every count from 2 to `2^24 - 1` and every in-range sequence, the
regeneration of `main` returns `rectCount` rectangles, each of width exactly
`rectSize = (float)screenWidth/rectCount`, with
`|x_{i+1} - (x_i + rectSize)| <= 2^-12`, `|x_0| <= 2^-14`, the row ending within
`2^-12` of `screenWidth = 800`, and the two margins within `2^-12` of each other.
At the initial count 20 the layout is exact: `rectSize = 40` and `x_i = 40*i`.
For every call with such a count and `rectWidth`, `screenWidth` of absolute
value at most `2^40`, every rectangle has the width `rectWidth`, and both
`|x_{i+1} - (x_i + rectWidth)|` and the difference of the two margins are at
most `(|screenWidth| + rectCount*|rectWidth|) * 2^-20 + 10^-40`. -/
theorem layout_contiguous_and_centred :
    (∀ (n : Nat) (seq : List Int) (rnd : Nat → Int),
      2 ≤ n → n < 16777216 → seq.length = n → InRange seq n →
      ∃ st : MainState, Binary32.regenerate (n : Int) seq rnd = some st ∧
        st.rectCount = (n : Int) ∧ st.rectangles.length = n ∧
        st.rectSize = Binary32.rn (800 / (n : ℚ)) ∧
        (∀ (i : Nat) (d : ColorRect), st.rectangles[i]? = some d → d.r.width = st.rectSize) ∧
        (∀ (i : Nat) (d e : ColorRect), st.rectangles[i]? = some d →
          st.rectangles[i + 1]? = some e → |e.r.x - (d.r.x + st.rectSize)| ≤ 1 / 4096) ∧
        ∃ first last : ColorRect,
          st.rectangles[0]? = some first ∧ st.rectangles[n - 1]? = some last ∧
          |first.r.x| ≤ 1 / 16384 ∧
          |last.r.x + st.rectSize - 800| ≤ 1 / 4096 ∧
          |first.r.x - (800 - (last.r.x + st.rectSize))| ≤ 1 / 4096)
    ∧ (∀ (seq : List Int) (rnd : Nat → Int), seq.length = 20 → InRange seq 20 →
        ∃ st : MainState, Binary32.regenerate 20 seq rnd = some st ∧ st.rectSize = 40 ∧
          ∀ (i : Nat) (d : ColorRect), st.rectangles[i]? = some d →
            d.r.x = 40 * (i : ℚ) ∧ d.r.width = 40)
    ∧ (∀ (n : Nat) (rectWidth screenWidth screenHeight : ℚ) (seq : List Int) (rnd : Nat → Int),
        2 ≤ n → n < 16777216 → |rectWidth| ≤ 2 ^ 40 → |screenWidth| ≤ 2 ^ 40 →
        0 ≤ screenHeight → screenHeight ≤ 8388608 → Binary32.rn screenHeight = screenHeight →
        seq.length = n → InRange seq n →
        ∃ out : List ColorRect,
          Binary32.GenerateRandomColorRectSequence (n : ℚ) rectWidth screenWidth screenHeight
            seq rnd = some out ∧ out.length = n ∧
          (∀ (i : Nat) (d : ColorRect), out[i]? = some d → d.r.width = rectWidth) ∧
          (∀ (i : Nat) (d e : ColorRect), out[i]? = some d → out[i + 1]? = some e →
            |e.r.x - (d.r.x + rectWidth)|
              ≤ (|screenWidth| + (n : ℚ) * |rectWidth|) / 1048576 + 1 / 10 ^ 40) ∧
          ∃ first last : ColorRect, out[0]? = some first ∧ out[n - 1]? = some last ∧
            |first.r.x - (screenWidth - (last.r.x + rectWidth))|
              ≤ (|screenWidth| + (n : ℚ) * |rectWidth|) / 1048576 + 1 / 10 ^ 40) := by
  refine ⟨?_, ?_, ?_⟩
  · intro n seq rnd hn hn2 hlen hr
    have h := Binary32.regenerate_rounded_eq n seq rnd hn hn2 hlen hr
    obtain ⟨hx0, hstep, hend, hmargin⟩ := Binary32.main_layout_bounds n hn hn2
    refine ⟨_, h, rfl, by simp, rfl, ?_, ?_, ?_⟩
    · intro i d hd
      obtain ⟨_, rfl⟩ := getElem?_range_map n _ i d hd
      rfl
    · intro i d e hd he
      obtain ⟨_, rfl⟩ := getElem?_range_map n _ i d hd
      obtain ⟨hi, rfl⟩ := getElem?_range_map n _ (i + 1) e he
      exact hstep i hi
    · have h0 : 0 < n := by omega
      have hl : n - 1 < n := by omega
      refine ⟨Binary32.roundedRect n (Binary32.mainWidth n) 800 (675 / 2) rnd 0
          (seq.getD 0 0),
        Binary32.roundedRect n (Binary32.mainWidth n) 800 (675 / 2) rnd (n - 1)
          (seq.getD (n - 1) 0), ?_, ?_, hx0, hend, hmargin⟩
      · rw [List.getElem?_map, List.getElem?_range h0]; rfl
      · rw [List.getElem?_map, List.getElem?_range hl]; rfl
  · intro seq rnd hlen hr
    have h := Binary32.regenerate_rounded_eq 20 seq rnd (by norm_num) (by norm_num) hlen hr
    rw [show ((20 : Nat) : Int) = 20 from rfl] at h
    refine ⟨_, h, ?_, ?_⟩
    · show Binary32.mainWidth 20 = 40
      exact Binary32.mainWidth_20
    · intro i d hd
      obtain ⟨hi, rfl⟩ := getElem?_range_map 20 _ i d hd
      constructor
      · show Binary32.mainX 20 i = 40 * (i : ℚ)
        exact Binary32.mainX_20 i hi
      · show Binary32.mainWidth 20 = 40
        exact Binary32.mainWidth_20
  · intro n w W H seq rnd hn hn2 hw hW hH hH2 hHf hlen hr
    obtain ⟨hstep, hmargin⟩ := Binary32.layout_bounds n w W (by omega)
    refine ⟨_, Binary32.generate_rounded_eq n w W H seq rnd hn hn2 hw hW hH hH2 hHf hlen hr,
      by simp, ?_, ?_, ?_⟩
    · intro i d hd
      obtain ⟨_, rfl⟩ := getElem?_range_map n _ i d hd
      rfl
    · intro i d e hd he
      obtain ⟨_, rfl⟩ := getElem?_range_map n _ i d hd
      obtain ⟨hi, rfl⟩ := getElem?_range_map n _ (i + 1) e he
      exact hstep i hi
    · have h0 : 0 < n := by omega
      have hl : n - 1 < n := by omega
      refine ⟨Binary32.roundedRect n w W H rnd 0 (seq.getD 0 0),
        Binary32.roundedRect n w W H rnd (n - 1) (seq.getD (n - 1) 0), ?_, ?_, hmargin⟩
      · rw [List.getElem?_map, List.getElem?_range h0]; rfl
      · rw [List.getElem?_map, List.getElem?_range hl]; rfl

theorem layout_contiguous_and_centred_witness :
    ∃ st : MainState, Binary32.regenerate ((45 : Nat) : Int) (idSeq 45) rndZero = some st ∧
      st.rectCount = ((45 : Nat) : Int) ∧ st.rectangles.length = 45 ∧
      st.rectSize = Binary32.rn (800 / ((45 : Nat) : ℚ)) ∧
      (∀ (i : Nat) (d : ColorRect), st.rectangles[i]? = some d → d.r.width = st.rectSize) ∧
      (∀ (i : Nat) (d e : ColorRect), st.rectangles[i]? = some d →
        st.rectangles[i + 1]? = some e → |e.r.x - (d.r.x + st.rectSize)| ≤ 1 / 4096) ∧
      ∃ first last : ColorRect,
        st.rectangles[0]? = some first ∧ st.rectangles[45 - 1]? = some last ∧
        |first.r.x| ≤ 1 / 16384 ∧
        |last.r.x + st.rectSize - 800| ≤ 1 / 4096 ∧
        |first.r.x - (800 - (last.r.x + st.rectSize))| ≤ 1 / 4096 :=
  layout_contiguous_and_centred.1 45 (idSeq 45) rndZero (by decide) (by decide) (by decide)
    (by decide)

/-- C10: the divisions in the update path are never by zero.  In every state
reached from the start by any passes (SPACE, UP and DOWN in any combination),
`rectCount >= 3`, hence `rectCount` (the divisor of `screenWidth/rectCount`)
and `rectCount - 1 - 0` (the input range of the `Remap` call) are not zero, and
`rectSize` is the quotient: `rectSize * rectCount = screenWidth`. -/
theorem divisors_never_zero (seq : List Int) (rnd : Nat → Int) (frames : List FrameInput)
    (st : MainState) (h : mainRun seq rnd frames = some st) :
    3 ≤ st.rectCount ∧ st.rectCount ≠ 0 ∧ st.rectCount - 1 ≠ 0 ∧
      (st.rectCount : ℚ) ≠ 0 ∧ ((st.rectCount : ℚ) - 1) - 0 ≠ 0 ∧
      st.rectSize * (st.rectCount : ℚ) = (screenWidth : ℚ) := by
  obtain ⟨h3, _, hsz⟩ := mainRun_inv h
  have hq : (3 : ℚ) ≤ (st.rectCount : ℚ) := by exact_mod_cast h3
  have hq0 : (st.rectCount : ℚ) ≠ 0 := by
    intro h0; rw [h0] at hq; norm_num at hq
  refine ⟨h3, by omega, by omega, hq0, ?_, ?_⟩
  · intro h1
    have : (st.rectCount : ℚ) = 1 := by linarith
    rw [this] at hq; norm_num at hq
  · rw [hsz]; field_simp

theorem divisors_never_zero_witness :
    ∃ st : MainState,
      mainRun (idSeq 20) rndZero
        [spaceKey (idSeq 20), upKey (idSeq 21), downKey (idSeq 20), downKey (idSeq 19)] = some st ∧
      3 ≤ st.rectCount :=
  ⟨(mainRun (idSeq 20) rndZero
      [spaceKey (idSeq 20), upKey (idSeq 21), downKey (idSeq 20), downKey (idSeq 19)]).get
      (by decide),
    (Option.some_get _).symm,
    (divisors_never_zero (idSeq 20) rndZero
      [spaceKey (idSeq 20), upKey (idSeq 21), downKey (idSeq 20), downKey (idSeq 19)] _
      (Option.some_get _).symm).1⟩

end RandomSequence
